import Mathlib

/-!
The queue of upcoming pieces of `tetris.c`.

A shallow embedding of `src/tetris.c`: the piece record, the circular queue kept in the
globals `fila_pecas`, `frente`, `fim`, `contador`, the id counter `proximo_id`, and the
functions `gerarPeca`, `enqueue`, `dequeue`, `exibirFila`, `inicializarFila`, `menu` and
`main`.

Conventions of the embedding.

* The globals become the fields of `Estado`; every function takes the state and returns
  the new state together with its result and the list of `printf` calls it made.
* `int` is a 32-bit two's complement integer: values are `Int`s and every `+` and `-` of the
  source is followed by `wrapInt` (reduction into `-2^31 .. 2^31 - 1`). The `%` of C truncates
  towards zero, which is `Int.tmod`.
* An array access outside the bounds of the array has no defined result: the functions
  return `Option`, and `none` stands for such an access.
* The macro `CAPACIDADE_MAXIMA` is `5` in the source. The functions take the capacity `N`
  as a parameter, so that the same text can be read at another value of the macro; the
  program is the instance `N = CAPACIDADE_MAXIMA`.
* `rand()` and the content of an uninitialised local variable are inputs of the functions
  that use them; so is what `scanf` reads in `menu`.
-/

namespace Tetris

/-- The record `Peca` of the source: `char nome; int id;`. -/
structure Peca where
  nome : Char
  id : Int
deriving DecidableEq, Repr

/-- The value of the macro `CAPACIDADE_MAXIMA`. -/
def CAPACIDADE_MAXIMA : Nat := 5

/-- Reduction of an integer into the range of a 32-bit `int`. -/
def wrapInt (x : Int) : Int := (x + 2147483648) % 4294967296 - 2147483648

/-- The `+` of two `int`s. -/
def intAdd (a b : Int) : Int := wrapInt (a + b)

/-- The `-` of two `int`s. -/
def intSub (a b : Int) : Int := wrapInt (a - b)

/-- The global variables of the program, for a queue of `N` slots. -/
structure Estado (N : Nat) where
  fila_pecas : Fin N → Peca
  frente : Int
  fim : Int
  contador : Int
  proximo_id : Int

/-- The globals as the program starts: `frente = 0`, `fim = -1`, `contador = 0`,
`proximo_id = 0`, and the array zero-initialised as every C global. -/
def inicial (N : Nat) : Estado N :=
  { fila_pecas := fun _ => ⟨Char.ofNat 0, 0⟩
    frente := 0
    fim := -1
    contador := 0
    proximo_id := 0 }

/-- The calls of `printf` made by the program, with their arguments. -/
inductive Saida where
  | filaCheia (nome : Char) (id : Int)
  | enqueueOk (nome : Char) (id : Int)
  | filaVazia
  | dequeueOk (nome : Char) (id : Int)
  | cabecalho (contador : Int)
  | ocupacao (capacidade ocupacao livre : Int)
  | estaVazia
  | linha
  | rotulo
  | item (nome : Char) (id : Int)
  | seta
  | rodape
  | inicializando (n : Int)
  | inicializada
  | menuTitulo
  | menuJogar
  | menuInserir
  | menuSair
  | menuEscolha
  | terminou
  | invalida
deriving DecidableEq, Repr

/-- The read `fila_pecas[i]`: defined only for `0 <= i < N`. -/
def ler {N : Nat} (a : Fin N → Peca) (i : Int) : Option Peca :=
  if h : 0 ≤ i ∧ i.toNat < N then some (a ⟨i.toNat, h.2⟩) else none

/-- The write `fila_pecas[i] = p`: defined only for `0 <= i < N`. -/
def escrever {N : Nat} (a : Fin N → Peca) (i : Int) (p : Peca) : Option (Fin N → Peca) :=
  if h : 0 ≤ i ∧ i.toNat < N then some (Function.update a ⟨i.toNat, h.2⟩ p) else none

/-- The table `tipos` of `gerarPeca`. -/
def tipos : List Char := ['I', 'O', 'T', 'L']

/-- The function `gerarPeca`; `r` is the value returned by `rand()`. -/
def gerarPeca {N : Nat} (r : Int) (s : Estado N) : Option (Estado N × Peca) :=
  let indice_tipo := Int.tmod r 4
  if 0 ≤ indice_tipo then
    match tipos[indice_tipo.toNat]? with
    | none => none
    | some nome =>
      some ({ s with proximo_id := intAdd s.proximo_id 1 }, ⟨nome, s.proximo_id⟩)
  else none

/-- The function `enqueue`. -/
def enqueue {N : Nat} (nova_peca : Peca) (s : Estado N) : Option (Estado N × List Saida) :=
  if s.contador = N then
    some (s, [Saida.filaCheia nova_peca.nome nova_peca.id])
  else
    let fim := Int.tmod (intAdd s.fim 1) N
    match escrever s.fila_pecas fim nova_peca with
    | none => none
    | some fila =>
      let contador := intAdd s.contador 1
      some ({ s with fim := fim, fila_pecas := fila, contador := contador },
        if contador < N then [Saida.enqueueOk nova_peca.nome nova_peca.id] else [])

/-- The function `dequeue`; `lixo` is the content of the field `nome` of the uninitialised
local `peca_removida`, which is what the function returns in that field on an empty queue. -/
def dequeue {N : Nat} (lixo : Char) (s : Estado N) : Option (Estado N × Peca × List Saida) :=
  if s.contador = 0 then
    some (s, ⟨lixo, -1⟩, [Saida.filaVazia])
  else
    match ler s.fila_pecas s.frente with
    | none => none
    | some peca_removida =>
      some ({ s with frente := Int.tmod (intAdd s.frente 1) N,
                     contador := intSub s.contador 1 },
        peca_removida, [Saida.dequeueOk peca_removida.nome peca_removida.id])

/-- The `for` loop of `exibirFila`, `for (int i = 0; i < contador; i++)`, from the index
`i` with `n` iterations left to run: each iteration reads the slot `(frente + i) % N`,
prints it, prints an arrow when `i < contador - 1`, and goes on with `i + 1`. -/
def exibirLaco {N : Nat} (s : Estado N) : Nat → Int → Option (List Saida)
  | 0, _ => some []
  | n + 1, i =>
    let indice_atual := Int.tmod (intAdd s.frente i) N
    match ler s.fila_pecas indice_atual with
    | none => none
    | some p =>
      match exibirLaco s n (intAdd i 1) with
      | none => none
      | some resto =>
        some (Saida.item p.nome p.id ::
          ((if i < intSub s.contador 1 then [Saida.seta] else []) ++ resto))

/-- The function `exibirFila`. The loop starts at `i = 0` and runs while `i < contador`,
that is `contador` times. -/
def exibirFila {N : Nat} (s : Estado N) : Option (Estado N × List Saida) :=
  let topo := [Saida.cabecalho s.contador, Saida.ocupacao N s.contador (intSub N s.contador)]
  if s.contador = 0 then
    some (s, topo ++ [Saida.estaVazia, Saida.linha])
  else
    match exibirLaco s s.contador.toNat 0 with
    | none => none
    | some itens => some (s, topo ++ [Saida.rotulo] ++ itens ++ [Saida.rodape])

/-- The pieces printed by a run of `exibirFila`, in the order of printing. -/
def pecasImpressas : List Saida → List Peca
  | [] => []
  | Saida.item nome id :: resto => ⟨nome, id⟩ :: pecasImpressas resto
  | _ :: resto => pecasImpressas resto

/-- The snapshot of the queue: the pieces that `exibirFila` enumerates. -/
def snapshot {N : Nat} (s : Estado N) : Option (List Peca) :=
  (exibirFila s).map (fun r => pecasImpressas r.2)

/-- A call of one of the four functions, with the inputs it takes from outside the state. -/
inductive Chamada where
  | enq (p : Peca)
  | deq (lixo : Char)
  | gerar (r : Nat)
  | exibir
deriving DecidableEq, Repr

/-- The state after one call. -/
def executarChamada {N : Nat} (c : Chamada) (s : Estado N) : Option (Estado N) :=
  match c with
  | Chamada.enq p => (enqueue p s).map (fun r => r.1)
  | Chamada.deq lixo => (dequeue lixo s).map (fun r => r.1)
  | Chamada.gerar r => (gerarPeca (r : Int) s).map (fun r => r.1)
  | Chamada.exibir => (exibirFila s).map (fun r => r.1)

/-- The state after a sequence of calls, made in the order of the list. -/
def executar {N : Nat} : List Chamada → Estado N → Option (Estado N)
  | [], s => some s
  | c :: cs, s =>
    match executarChamada c s with
    | none => none
    | some s1 => executar cs s1

/-- The content of slot `k` of the array, for the statements: the slot itself when
`k < N`, and a zero piece outside the array. -/
def slot {N : Nat} (a : Fin N → Peca) (k : Nat) : Peca :=
  if h : k < N then a ⟨k, h⟩ else ⟨Char.ofNat 0, 0⟩

/-- The occupied slots read from the head: the slots `(frente + i) mod N` for
`i = 0 .. contador - 1`. -/
def conteudo {N : Nat} (s : Estado N) : List Peca :=
  (List.range s.contador.toNat).map (fun i => slot s.fila_pecas ((s.frente.toNat + i) % N))

/-- The invariant of the queue: the bounds of the three control variables, `fim` one slot
behind `frente + contador` modulo `N`, and `fim = -1` only while nothing was ever queued. -/
def Inv {N : Nat} (s : Estado N) : Prop :=
  0 ≤ s.frente ∧ s.frente < N ∧ 0 ≤ s.contador ∧ s.contador ≤ N ∧ -1 ≤ s.fim ∧ s.fim < N ∧
  (s.fim + 1 = s.frente + s.contador ∨ s.fim + 1 + N = s.frente + s.contador ∨
    s.fim + 1 = s.frente + s.contador + N) ∧
  (s.fim = -1 → s.frente = 0 ∧ s.contador = 0)

instance instDecidableInv {N : Nat} (s : Estado N) : Decidable (Inv s) := by
  unfold Inv
  exact inferInstance

/-- The abstract FIFO queue of the specification, one call at a time: an `enqueue` is
accepted when the queue is not full and appends its piece at the end, a `dequeue` is
accepted when the queue is not empty and drops the first piece, and a rejected call, a
generation or a display leaves the queue as it is. -/
def fifoPasso (N : Nat) (l : List Peca) : Chamada → List Peca
  | Chamada.enq p => if l.length < N then l ++ [p] else l
  | Chamada.deq _ => if l.length = 0 then l else l.drop 1
  | Chamada.gerar _ => l
  | Chamada.exibir => l

/-- The abstract FIFO queue after a sequence of calls, starting from the queue `l`. -/
def fifo (N : Nat) (ops : List Chamada) (l : List Peca) : List Peca :=
  ops.foldl (fifoPasso N) l

/-- The pieces whose `enqueue` the code accepted (the test `contador == N` failed) along a
sequence of calls started in the state `s`, in the order of the calls. -/
def aceitas {N : Nat} : List Chamada → Estado N → List Peca
  | [], _ => []
  | c :: cs, s =>
    match executarChamada c s with
    | none => []
    | some s1 =>
      match c with
      | Chamada.enq p => if s.contador = N then aceitas cs s1 else p :: aceitas cs s1
      | _ => aceitas cs s1

/-- The number of `dequeue` calls the code accepted (the test `contador == 0` failed) along
a sequence of calls started in the state `s`. -/
def removidas {N : Nat} : List Chamada → Estado N → Nat
  | [], _ => 0
  | c :: cs, s =>
    match executarChamada c s with
    | none => 0
    | some s1 =>
      match c with
      | Chamada.deq _ => if s.contador = 0 then removidas cs s1 else removidas cs s1 + 1
      | _ => removidas cs s1

/-- The states the program can be in: those reached from the initial state by a finite
sequence of calls. -/
def Alcancavel {N : Nat} (s : Estado N) : Prop :=
  ∃ ops : List Chamada, executar ops (inicial N) = some s

/-- A full queue of the program: five pieces in the slots `0 .. 4`, read from slot `0`. -/
def estadoCheio : Estado CAPACIDADE_MAXIMA :=
  { fila_pecas := fun i => ⟨'I', (i.val : Int)⟩
    frente := 0
    fim := 4
    contador := 5
    proximo_id := 5 }

/-- An empty queue of the program whose head is not at slot `0`. -/
def estadoVazio : Estado CAPACIDADE_MAXIMA :=
  { fila_pecas := fun i => ⟨'O', (i.val : Int)⟩
    frente := 2
    fim := 1
    contador := 0
    proximo_id := 2 }

/-- A state of the program with one queued piece: the state after `enqueue` of two pieces
and one `dequeue`. -/
def estadoMeio : Estado CAPACIDADE_MAXIMA :=
  { fila_pecas := Function.update (Function.update (inicial CAPACIDADE_MAXIMA).fila_pecas
      ⟨0, by decide⟩ ⟨'I', 0⟩) ⟨1, by decide⟩ ⟨'O', 1⟩
    frente := 1
    fim := 1
    contador := 1
    proximo_id := 0 }

/-- Whether a call is a call of `gerarPeca`. -/
def ehGerar : Chamada → Bool
  | Chamada.gerar _ => true
  | _ => false

/-- The pieces returned by the calls of `gerarPeca` along a sequence of calls started in
the state `s`, in the order of the calls. -/
def geradas {N : Nat} : List Chamada → Estado N → List Peca
  | [], _ => []
  | Chamada.gerar r :: cs, s =>
    match gerarPeca (r : Int) s with
    | none => []
    | some (s1, p) => p :: geradas cs s1
  | c :: cs, s =>
    match executarChamada c s with
    | none => []
    | some s1 => geradas cs s1

/-- The loop of `inicializarFila`, `for (int i = 0; i < CAPACIDADE_MAXIMA; i++)`, from the
index `i` with `n` iterations left to run: each iteration calls `gerarPeca` and then
`enqueue` on the piece it returned. `rand i` is the value that the call of `rand()` of
iteration `i` returns. -/
def inicializarLaco {N : Nat} (rand : Nat → Nat) :
    Nat → Nat → Estado N → Option (Estado N × List Saida)
  | 0, _, s => some (s, [])
  | n + 1, i, s =>
    match gerarPeca (rand i : Int) s with
    | none => none
    | some (s1, p) =>
      match enqueue p s1 with
      | none => none
      | some (s2, out) =>
        match inicializarLaco rand n (i + 1) s2 with
        | none => none
        | some (s3, resto) => some (s3, out ++ resto)

/-- The function `inicializarFila`. The loop starts at `i = 0` and runs while
`i < CAPACIDADE_MAXIMA`, that is `N` times. -/
def inicializarFila {N : Nat} (rand : Nat → Nat) (s : Estado N) :
    Option (Estado N × List Saida) :=
  match inicializarLaco rand N 0 s with
  | none => none
  | some (s1, out) => some (s1, [Saida.inicializando N] ++ out ++ [Saida.inicializada])

/-- What one iteration of the loop of `main` takes from outside the state: `leitura` is
the integer that `scanf` read in `menu`, or `none` when `scanf` did not return `1` and the
rest of the input line, up to its newline, was skipped (an input that ends before a
newline, on which the skipping loop of `menu` does not return, is not an `Entrada`); `r`
is the value of `rand()` for the call of `gerarPeca` of the iteration, if it makes one;
`lixo` is the uninitialised `nome` of the local of `dequeue`. -/
structure Entrada where
  leitura : Option Int
  r : Nat
  lixo : Char
deriving DecidableEq, Repr

/-- The function `menu`: it returns the integer read, or `-1` when none could be read. -/
def menu (leitura : Option Int) : Int × List Saida :=
  let out := [Saida.menuTitulo, Saida.menuJogar, Saida.menuInserir, Saida.menuSair,
    Saida.menuEscolha]
  match leitura with
  | none => (-1, out)
  | some escolha => (escolha, out)

/-- The statement `enqueue(gerarPeca())` of `main`. -/
def enfileirarGerada {N : Nat} (r : Nat) (s : Estado N) : Option (Estado N × List Saida) :=
  match gerarPeca (r : Int) s with
  | none => none
  | some (s1, p) => enqueue p s1

/-- The body of the `do ... while` loop of `main`: it returns the state after the
iteration, the value of `opcao`, and what was printed. -/
def iteracao {N : Nat} (e : Entrada) (s : Estado N) : Option (Estado N × Int × List Saida) :=
  match exibirFila s with
  | none => none
  | some (s1, out1) =>
    let opcao := (menu e.leitura).1
    let out2 := (menu e.leitura).2
    if opcao = 1 then
      match dequeue e.lixo s1 with
      | none => none
      | some (s2, jogada, out3) =>
        if jogada.id ≠ -1 then
          match enfileirarGerada e.r s2 with
          | none => none
          | some (s3, out4) => some (s3, opcao, out1 ++ out2 ++ out3 ++ out4)
        else some (s2, opcao, out1 ++ out2 ++ out3)
    else if opcao = 2 then
      match enfileirarGerada e.r s1 with
      | none => none
      | some (s2, out3) => some (s2, opcao, out1 ++ out2 ++ out3)
    else if opcao = 0 then some (s1, opcao, out1 ++ out2 ++ [Saida.terminou])
    else some (s1, opcao, out1 ++ out2 ++ [Saida.invalida])

/-- The `do ... while (opcao != 0)` loop of `main` on the inputs of its first iterations:
the state reached, and whether the loop has ended (an iteration read the option `0`). -/
def laco {N : Nat} : List Entrada → Estado N → Option (Estado N × Bool)
  | [], s => some (s, false)
  | e :: es, s =>
    match iteracao e s with
    | none => none
    | some (s1, opcao, _) => if opcao ≠ 0 then laco es s1 else some (s1, true)

/-- The function `main`, run on the random values of the priming and on the inputs of the
first iterations of its loop. -/
def main (N : Nat) (rand : Nat → Nat) (es : List Entrada) : Option (Estado N × Bool) :=
  match inicializarFila rand (inicial N) with
  | none => none
  | some (s, _) => laco es s

/-- The kind of piece that `gerarPeca` picks when `rand()` returns `r`. -/
def tipoDe (r : Nat) : Char := tipos.getD (r % 4) 'I'

/-- The option that an iteration of the loop of `main` reads. -/
def opcaoDe (e : Entrada) : Int := (menu e.leitura).1

/-- Whether the option of an iteration is one of the two that call `gerarPeca`. -/
def gera (e : Entrada) : Bool := decide (opcaoDe e = 1 ∨ opcaoDe e = 2)

/-- The states of the driver at the start of an iteration of the loop of `main`. -/
def NoLaco {N : Nat} (s : Estado N) : Prop :=
  ∃ (rand : Nat → Nat) (es : List Entrada), main N rand es = some (s, false)

/-- The state that `inicializarFila` leaves when started in the initial state of the
program: the five generated pieces in the slots `0 .. 4`, with the ids `0 .. 4`. -/
def estadoPreparado (rand : Nat → Nat) : Estado CAPACIDADE_MAXIMA :=
  { fila_pecas := fun i => ⟨tipoDe (rand i.val), (i.val : Int)⟩
    frente := 0
    fim := 4
    contador := 5
    proximo_id := 5 }

/-- The invariant of the driver while its queue is full: the queue invariant,
`contador = N`, and, for the number `G` of calls of `gerarPeca` made so far, `proximo_id`
is `G` reduced to an `int` and the ids of the queued pieces, read from the head, are the
numbers of strictly increasing earlier calls `ks`, reduced to an `int`. -/
def InvDriver {N : Nat} (s : Estado N) (G : Nat) (ks : List Nat) : Prop :=
  Inv s ∧ s.contador = N ∧ s.proximo_id = wrapInt G ∧ ks.Pairwise (fun a b => a < b) ∧
  (∀ k ∈ ks, k < G) ∧ (conteudo s).map Peca.id = ks.map (fun (k : Nat) => wrapInt (k : Int))

/-- An input of the loop of `main` that reads the option `2`. -/
def entradaInserir : Entrada := ⟨some 2, 0, 'x'⟩

/-- An input of the loop of `main` that reads the option `1`. -/
def entradaJogar : Entrada := ⟨some 1, 0, 'x'⟩

/-! ## Arithmetic of `int` -/

theorem wrapInt_eq (x : Int) (h1 : -2147483648 ≤ x) (h2 : x < 2147483648) : wrapInt x = x := by
  unfold wrapInt
  omega

theorem wrapInt_range (x : Int) : -2147483648 ≤ wrapInt x ∧ wrapInt x < 2147483648 := by
  unfold wrapInt
  omega

theorem intAdd_eq (a b : Int) (h1 : -2147483648 ≤ a + b) (h2 : a + b < 2147483648) :
    intAdd a b = a + b :=
  wrapInt_eq _ h1 h2

theorem intSub_eq (a b : Int) (h1 : -2147483648 ≤ a - b) (h2 : a - b < 2147483648) :
    intSub a b = a - b :=
  wrapInt_eq _ h1 h2

theorem tmod_small (x n : Int) (h0 : 0 ≤ x) (h1 : x < n) : Int.tmod x n = x := by
  rw [Int.tmod_eq_emod h0 (by omega)]
  exact Int.emod_eq_of_lt h0 h1

theorem tmod_wrap (x n : Int) (h0 : n ≤ x) (h1 : x < 2 * n) : Int.tmod x n = x - n := by
  have hn : 0 ≤ n := by omega
  rw [Int.tmod_eq_emod (by omega) hn]
  have : x % n = (x - n) % n := by
    rw [Int.sub_emod, Int.emod_self, Int.sub_zero, Int.emod_emod]
  rw [this]
  exact Int.emod_eq_of_lt (by omega) (by omega)

theorem natMod_small (x n : Nat) (h : x < n) : x % n = x := Nat.mod_eq_of_lt h

theorem natMod_wrap (x n : Nat) (h0 : n ≤ x) (h1 : x < 2 * n) : x % n = x - n := by
  rw [Nat.mod_eq_sub_mod h0]
  exact Nat.mod_eq_of_lt (by omega)

theorem natMod_cases (x n : Nat) (h1 : x < 2 * n) :
    (x < n ∧ x % n = x) ∨ (n ≤ x ∧ x % n = x - n) := by
  rcases Nat.lt_or_ge x n with h | h
  · exact Or.inl ⟨h, natMod_small x n h⟩
  · exact Or.inr ⟨h, natMod_wrap x n h h1⟩

/-! ## Reads and writes of the array -/

theorem ler_eq {N : Nat} (a : Fin N → Peca) (i : Int) (h0 : 0 ≤ i) (h1 : i < N) :
    ler a i = some (slot a i.toNat) := by
  have h : i.toNat < N := by omega
  simp [ler, slot, h0, h]

theorem escrever_eq {N : Nat} (a : Fin N → Peca) (i : Int) (p : Peca) (h0 : 0 ≤ i)
    (h1 : i < N) :
    ∃ b, escrever a i p = some b ∧
      ∀ k : Nat, slot b k = if k = i.toNat then p else slot a k := by
  have h : i.toNat < N := by omega
  refine ⟨Function.update a ⟨i.toNat, h⟩ p, ?_, ?_⟩
  · simp [escrever, h0, h]
  · intro k
    by_cases hk : k < N
    · by_cases hki : k = i.toNat
      · subst hki
        simp [slot, hk]
      · have hne : (⟨k, hk⟩ : Fin N) ≠ ⟨i.toNat, h⟩ := by
          intro hc
          exact hki (Fin.mk.inj hc)
        simp [slot, hk, hki, Function.update_noteq hne]
    · have hki : k ≠ i.toNat := by omega
      simp [slot, hk, hki]

/-! ## One call of `enqueue` and of `dequeue` under the invariant -/

theorem inv_inicial {N : Nat} (hN : 0 < N) : Inv (inicial N) := by
  simp [Inv, inicial]
  omega

theorem fim_novo {N : Nat} (hN : N ≤ 1073741824) (s : Estado N) (hI : Inv s) :
    Int.tmod (intAdd s.fim 1) N = (((s.frente.toNat + s.contador.toNat) % N : Nat) : Int) := by
  obtain ⟨h1, h2, h3, h4, h5, h6, h7, h8⟩ := hI
  rw [intAdd_eq _ _ (by omega) (by omega)]
  have hmod : Int.tmod (s.fim + 1) N = if s.fim + 1 < N then s.fim + 1 else 0 := by
    by_cases hf : s.fim + 1 < N
    · rw [if_pos hf, tmod_small _ _ (by omega) hf]
    · rw [if_neg hf, tmod_wrap _ _ (by omega) (by omega)]
      omega
  rw [hmod]
  rcases natMod_cases (s.frente.toNat + s.contador.toNat) N (by omega) with ⟨ha, hb⟩ | ⟨ha, hb⟩
  · rw [hb]
    split_ifs <;> omega
  · rw [hb]
    split_ifs <;> omega

theorem frente_nova {N : Nat} (hN : N ≤ 1073741824) (s : Estado N) (hI : Inv s) :
    Int.tmod (intAdd s.frente 1) N = (((s.frente.toNat + 1) % N : Nat) : Int) := by
  obtain ⟨h1, h2, h3, h4, h5, h6, h7, h8⟩ := hI
  rw [intAdd_eq _ _ (by omega) (by omega)]
  rcases natMod_cases (s.frente.toNat + 1) N (by omega) with ⟨ha, hb⟩ | ⟨ha, hb⟩
  · rw [hb, tmod_small _ _ (by omega) (by omega)]
    omega
  · rw [hb, tmod_wrap _ _ (by omega) (by omega)]
    omega

theorem enqueue_aceita {N : Nat} (hN : N ≤ 1073741824) (p : Peca) (s : Estado N)
    (hI : Inv s) (hc : s.contador ≠ N) :
    ∃ s1, enqueue p s = some (s1, if s.contador + 1 < (N : Int) then
        [Saida.enqueueOk p.nome p.id] else []) ∧
      s1.frente = s.frente ∧ s1.contador = s.contador + 1 ∧
      s1.fim = (((s.frente.toNat + s.contador.toNat) % N : Nat) : Int) ∧
      s1.proximo_id = s.proximo_id ∧
      (∀ k : Nat, slot s1.fila_pecas k =
        if k = (s.frente.toNat + s.contador.toNat) % N then p else slot s.fila_pecas k) ∧
      Inv s1 ∧
      escrever s.fila_pecas (((s.frente.toNat + s.contador.toNat) % N : Nat) : Int) p =
        some s1.fila_pecas := by
  have hfim := fim_novo hN s hI
  obtain ⟨h1, h2, h3, h4, h5, h6, h7, h8⟩ := hI
  have hpos : 0 < N := by omega
  have hj : (s.frente.toNat + s.contador.toNat) % N < N := Nat.mod_lt _ hpos
  obtain ⟨b, hb, hslot⟩ := escrever_eq s.fila_pecas
    (((s.frente.toNat + s.contador.toNat) % N : Nat) : Int) p (by omega) (by omega)
  have hcont : intAdd s.contador 1 = s.contador + 1 := intAdd_eq _ _ (by omega) (by omega)
  refine ⟨{ s with fim := (((s.frente.toNat + s.contador.toNat) % N : Nat) : Int),
                   fila_pecas := b, contador := s.contador + 1 }, ?_, rfl, rfl, rfl, rfl, ?_, ?_,
    hb⟩
  · simp only [enqueue, if_neg hc, hfim, hb, hcont]
  · intro k
    rw [hslot k, Int.toNat_ofNat]
  · simp only [Inv]
    rcases natMod_cases (s.frente.toNat + s.contador.toNat) N (by omega) with ⟨ha, hb⟩ | ⟨ha, hb⟩
    · rw [hb]
      omega
    · rw [hb]
      omega

theorem dequeue_aceita {N : Nat} (hN : N ≤ 1073741824) (lixo : Char) (s : Estado N)
    (hI : Inv s) (hc : s.contador ≠ 0) :
    ∃ s1, dequeue lixo s = some (s1, slot s.fila_pecas s.frente.toNat,
        [Saida.dequeueOk (slot s.fila_pecas s.frente.toNat).nome
          (slot s.fila_pecas s.frente.toNat).id]) ∧
      s1.frente = (((s.frente.toNat + 1) % N : Nat) : Int) ∧ s1.contador = s.contador - 1 ∧
      s1.fim = s.fim ∧ s1.proximo_id = s.proximo_id ∧ s1.fila_pecas = s.fila_pecas ∧
      Inv s1 := by
  have hfr := frente_nova hN s hI
  obtain ⟨h1, h2, h3, h4, h5, h6, h7, h8⟩ := hI
  have hler := ler_eq s.fila_pecas s.frente h1 h2
  have hcont : intSub s.contador 1 = s.contador - 1 := intSub_eq _ _ (by omega) (by omega)
  refine ⟨{ s with frente := (((s.frente.toNat + 1) % N : Nat) : Int),
                   contador := s.contador - 1 }, ?_, rfl, rfl, rfl, rfl, rfl, ?_⟩
  · simp only [dequeue, if_neg hc, hler, hfr, hcont]
  · simp only [Inv]
    rcases natMod_cases (s.frente.toNat + 1) N (by omega) with ⟨ha, hb⟩ | ⟨ha, hb⟩
    · rw [hb]
      omega
    · rw [hb]
      omega

/-! ## The enumeration of `exibirFila` -/

theorem pecasImpressas_item (nome : Char) (id : Int) (setas resto : List Saida)
    (h : setas = [Saida.seta] ∨ setas = []) :
    pecasImpressas (Saida.item nome id :: (setas ++ resto)) =
      ⟨nome, id⟩ :: pecasImpressas resto := by
  rcases h with h | h <;> subst h <;> simp [pecasImpressas]

theorem exibirLaco_eq {N : Nat} (hN : N ≤ 1073741824) (s : Estado N) (hI : Inv s) :
    ∀ (n i : Nat), i + n ≤ s.contador.toNat →
      ∃ out, exibirLaco s n (i : Int) = some out ∧
        pecasImpressas out =
          (List.range' i n).map (fun k => slot s.fila_pecas ((s.frente.toNat + k) % N)) := by
  obtain ⟨h1, h2, h3, h4, h5, h6, h7, h8⟩ := hI
  intro n
  induction n with
  | zero =>
    intro i _
    exact ⟨[], rfl, rfl⟩
  | succ n ih =>
    intro i hi
    obtain ⟨resto, hr, hp⟩ := ih (i + 1) (by omega)
    have hidx : Int.tmod (intAdd s.frente i) N = (((s.frente.toNat + i) % N : Nat) : Int) := by
      rw [intAdd_eq _ _ (by omega) (by omega)]
      rcases natMod_cases (s.frente.toNat + i) N (by omega) with ⟨ha, hb⟩ | ⟨ha, hb⟩
      · rw [hb, tmod_small _ _ (by omega) (by omega)]
        omega
      · rw [hb, tmod_wrap _ _ (by omega) (by omega)]
        omega
    have hpos : 0 < N := by omega
    have hj : (s.frente.toNat + i) % N < N := Nat.mod_lt _ hpos
    have hler := ler_eq s.fila_pecas (((s.frente.toNat + i) % N : Nat) : Int)
      (by omega) (by omega)
    rw [Int.toNat_ofNat] at hler
    have hinc : intAdd (i : Int) 1 = ((i + 1 : Nat) : Int) := by
      rw [intAdd_eq _ _ (by omega) (by omega)]
      omega
    refine ⟨Saida.item (slot s.fila_pecas ((s.frente.toNat + i) % N)).nome
      (slot s.fila_pecas ((s.frente.toNat + i) % N)).id ::
        ((if (i : Int) < intSub s.contador 1 then [Saida.seta] else []) ++ resto), ?_, ?_⟩
    · simp only [exibirLaco, hidx, hler, hinc, hr]
    · rw [pecasImpressas_item _ _ _ _ (by split_ifs <;> simp), hp]
      simp [List.range'_succ]

theorem exibirFila_eq {N : Nat} (hN : N ≤ 1073741824) (s : Estado N) (hI : Inv s) :
    ∃ out, exibirFila s = some (s, out) ∧ pecasImpressas out = conteudo s := by
  by_cases hc : s.contador = 0
  · refine ⟨[Saida.cabecalho s.contador, Saida.ocupacao N s.contador (intSub N s.contador)] ++
      [Saida.estaVazia, Saida.linha], ?_, ?_⟩
    · simp only [exibirFila, if_pos hc]
    · simp [pecasImpressas, conteudo, hc]
  · obtain ⟨itens, hl, hp⟩ := exibirLaco_eq hN s hI s.contador.toNat 0 (by omega)
    refine ⟨[Saida.cabecalho s.contador, Saida.ocupacao N s.contador (intSub N s.contador)] ++
      [Saida.rotulo] ++ itens ++ [Saida.rodape], ?_, ?_⟩
    · simp only [exibirFila, if_neg hc]
      rw [show ((0 : Nat) : Int) = 0 from rfl] at hl
      simp only [hl]
    · have happ : ∀ (l : List Saida), pecasImpressas (l ++ [Saida.rodape]) = pecasImpressas l := by
        intro l
        induction l with
        | nil => rfl
        | cons a l ih => cases a <;> simp [pecasImpressas, ih]
      have hpre : ∀ (l : List Saida),
          pecasImpressas ([Saida.cabecalho s.contador,
            Saida.ocupacao N s.contador (intSub N s.contador)] ++ [Saida.rotulo] ++ l) =
            pecasImpressas l := fun l => rfl
      rw [List.append_assoc, hpre, happ, hp, conteudo, List.range_eq_range']

theorem snapshot_eq {N : Nat} (hN : N ≤ 1073741824) (s : Estado N) (hI : Inv s) :
    snapshot s = some (conteudo s) := by
  obtain ⟨out, h, hp⟩ := exibirFila_eq hN s hI
  simp [snapshot, h, hp]

/-! ## The content of the queue across one call -/

theorem conteudo_length {N : Nat} (s : Estado N) : (conteudo s).length = s.contador.toNat := by
  simp [conteudo]

theorem conteudo_enqueue {N : Nat} (p : Peca) (s s1 : Estado N) (hI : Inv s)
    (hc : s.contador ≠ N) (hf : s1.frente = s.frente) (hn : s1.contador = s.contador + 1)
    (hs : ∀ k : Nat, slot s1.fila_pecas k =
      if k = (s.frente.toNat + s.contador.toNat) % N then p else slot s.fila_pecas k) :
    conteudo s1 = conteudo s ++ [p] := by
  obtain ⟨h1, h2, h3, h4, h5, h6, h7, h8⟩ := hI
  have hlen : s1.contador.toNat = s.contador.toNat + 1 := by omega
  simp only [conteudo, hlen, hf, List.range_succ, List.map_append, List.map_cons, List.map_nil]
  congr 1
  · apply List.map_congr_left
    intro i hi
    rw [List.mem_range] at hi
    rw [hs, if_neg]
    rcases natMod_cases (s.frente.toNat + i) N (by omega) with ⟨_, hb⟩ | ⟨_, hb⟩ <;>
      rcases natMod_cases (s.frente.toNat + s.contador.toNat) N (by omega) with
        ⟨_, hd⟩ | ⟨_, hd⟩ <;> omega
  · rw [hs, if_pos rfl]

theorem conteudo_dequeue {N : Nat} (s s1 : Estado N) (hI : Inv s) (hc : s.contador ≠ 0)
    (hf : s1.frente = (((s.frente.toNat + 1) % N : Nat) : Int))
    (hn : s1.contador = s.contador - 1) (hs : s1.fila_pecas = s.fila_pecas) :
    conteudo s = slot s.fila_pecas s.frente.toNat :: conteudo s1 := by
  obtain ⟨h1, h2, h3, h4, h5, h6, h7, h8⟩ := hI
  have hlen : s.contador.toNat = s1.contador.toNat + 1 := by omega
  have hfr : s1.frente.toNat = (s.frente.toNat + 1) % N := by
    rw [hf, Int.toNat_ofNat]
  simp only [conteudo, hlen, hfr, hs, List.range_succ_eq_map, List.map_cons, List.map_map]
  congr 1
  · rw [Nat.add_zero, Nat.mod_eq_of_lt (by omega)]
  · apply List.map_congr_left
    intro i _
    simp only [Function.comp]
    rw [Nat.mod_add_mod, Nat.add_assoc, Nat.add_comm 1 i]

/-! ## `gerarPeca` -/

theorem tipos_get (r : Nat) : ∃ nome, tipos[r % 4]? = some nome ∧ nome ∈ tipos := by
  have h : r % 4 < 4 := Nat.mod_lt _ (by decide)
  interval_cases (r % 4) <;> simp [tipos]

theorem gerarPeca_eq {N : Nat} (r : Nat) (s : Estado N) :
    ∃ nome, nome ∈ tipos ∧ gerarPeca (r : Int) s =
      some ({ s with proximo_id := intAdd s.proximo_id 1 }, ⟨nome, s.proximo_id⟩) := by
  obtain ⟨nome, hn, hm⟩ := tipos_get r
  have ht : Int.tmod (r : Int) 4 = ((r % 4 : Nat) : Int) := by
    rw [Int.tmod_eq_emod (by omega) (by omega)]
    omega
  refine ⟨nome, hm, ?_⟩
  simp only [gerarPeca, ht, Int.toNat_ofNat, hn]
  rw [if_pos (by omega)]

/-! ## Runs of calls -/

theorem passo_simula {N : Nat} (hN : N ≤ 1073741824) (c : Chamada) (s : Estado N)
    (hI : Inv s) :
    ∃ s1, executarChamada c s = some s1 ∧ Inv s1 ∧
      conteudo s1 = fifoPasso N (conteudo s) c := by
  have hI0 := hI
  obtain ⟨h1, h2, h3, h4, h5, h6, h7, h8⟩ := hI
  cases c with
  | enq p =>
    by_cases hc : s.contador = N
    · have hlen : ¬ (conteudo s).length < N := by
        rw [conteudo_length]
        omega
      refine ⟨s, ?_, hI0, ?_⟩
      · simp [executarChamada, enqueue, hc]
      · simp only [fifoPasso, if_neg hlen]
    · obtain ⟨s1, he, hf, hn, _, _, hs, hI1, _⟩ := enqueue_aceita hN p s hI0 hc
      have hlen : (conteudo s).length < N := by
        rw [conteudo_length]
        omega
      have hcont := conteudo_enqueue p s s1 hI0 hc hf hn hs
      refine ⟨s1, ?_, hI1, ?_⟩
      · simp [executarChamada, he]
      · simp only [fifoPasso, if_pos hlen, hcont]
  | deq lixo =>
    by_cases hc : s.contador = 0
    · have hlen : (conteudo s).length = 0 := by
        rw [conteudo_length]
        omega
      refine ⟨s, ?_, hI0, ?_⟩
      · simp [executarChamada, dequeue, hc]
      · simp only [fifoPasso, if_pos hlen]
    · obtain ⟨s1, he, hf, hn, _, _, hs, hI1⟩ := dequeue_aceita hN lixo s hI0 hc
      have hlen : ¬ (conteudo s).length = 0 := by
        rw [conteudo_length]
        omega
      have hcont := conteudo_dequeue s s1 hI0 hc hf hn hs
      refine ⟨s1, ?_, hI1, ?_⟩
      · simp [executarChamada, he]
      · simp only [fifoPasso]
        rw [if_neg hlen, hcont]
        rfl
  | gerar r =>
    obtain ⟨nome, _, hg⟩ := gerarPeca_eq r s
    refine ⟨{ s with proximo_id := intAdd s.proximo_id 1 }, ?_, hI0, rfl⟩
    simp [executarChamada, hg]
  | exibir =>
    obtain ⟨out, he, _⟩ := exibirFila_eq hN s hI0
    refine ⟨s, ?_, hI0, rfl⟩
    simp [executarChamada, he]

theorem executar_simula {N : Nat} (hN : N ≤ 1073741824) :
    ∀ (ops : List Chamada) (s : Estado N), Inv s →
      ∃ s1, executar ops s = some s1 ∧ Inv s1 ∧ conteudo s1 = fifo N ops (conteudo s) ∧
        conteudo s1 = (conteudo s ++ aceitas ops s).drop (removidas ops s) := by
  intro ops
  induction ops with
  | nil =>
    intro s hI
    exact ⟨s, rfl, hI, rfl, by simp [aceitas, removidas]⟩
  | cons c cs ih =>
    intro s hI
    obtain ⟨s1, he, hI1, hc1⟩ := passo_simula hN c s hI
    obtain ⟨s2, he2, hI2, hc2, hc3⟩ := ih s1 hI1
    have hlen := conteudo_length s
    obtain ⟨h1, h2, h3, h4, h5, h6, h7, h8⟩ := hI
    refine ⟨s2, ?_, hI2, ?_, ?_⟩
    · simp only [executar, he, he2]
    · rw [hc2, hc1]
      rfl
    · rw [hc3, hc1]
      cases c with
      | enq p =>
        by_cases hc : s.contador = N
        · have hl : ¬ (conteudo s).length < N := by omega
          simp only [aceitas, removidas, he, fifoPasso, if_neg hl, if_pos hc]
        · have hl : (conteudo s).length < N := by omega
          simp only [aceitas, removidas, he, fifoPasso, if_pos hl, if_neg hc,
            List.append_assoc, List.singleton_append]
      | deq lixo =>
        by_cases hc : s.contador = 0
        · have hl : (conteudo s).length = 0 := by omega
          simp only [aceitas, removidas, he, fifoPasso, if_pos hl, if_pos hc]
        · have hl : ¬ (conteudo s).length = 0 := by omega
          simp only [aceitas, removidas, he, fifoPasso, if_neg hl, if_neg hc]
          cases hcs : conteudo s with
          | nil => simp [hcs] at hl
          | cons x t => rfl
      | gerar r => simp only [aceitas, removidas, he, fifoPasso]
      | exibir => simp only [aceitas, removidas, he, fifoPasso]

theorem conteudo_inicial (N : Nat) : conteudo (inicial N) = [] := by
  simp [conteudo, inicial]

theorem capacidade_ok : CAPACIDADE_MAXIMA ≤ 1073741824 := by decide

theorem alcancavel_inv {N : Nat} (hN0 : 0 < N) (hN : N ≤ 1073741824) (s : Estado N)
    (hr : Alcancavel s) : Inv s := by
  obtain ⟨ops, hops⟩ := hr
  obtain ⟨s1, he, hI, _, _⟩ := executar_simula hN ops (inicial N) (inv_inicial hN0)
  rw [he] at hops
  cases hops
  exact hI

theorem indice_cast (N : Nat) (f : Int) (h0 : 0 ≤ f) (i : Nat) :
    (f + (i : Int)) % (N : Int) = (((f.toNat + i) % N : Nat) : Int) := by
  rw [Int.natCast_mod, Nat.cast_add, Int.toNat_of_nonneg h0]

theorem alcancavel_estadoMeio : Alcancavel estadoMeio :=
  ⟨[Chamada.enq ⟨'I', 0⟩, Chamada.enq ⟨'O', 1⟩, Chamada.deq 'x'], rfl⟩

theorem fifo_enqs (N : Nat) : ∀ (ps l : List Peca), l.length + ps.length ≤ N →
    fifo N (ps.map Chamada.enq) l = l ++ ps := by
  intro ps
  induction ps with
  | nil =>
    intro l _
    simp [fifo]
  | cons p ps ih =>
    intro l hl
    have h1 : l.length < N := by
      simp only [List.length_cons] at hl
      omega
    have h2 : (l ++ [p]).length + ps.length ≤ N := by
      simp only [List.length_cons, List.length_append, List.length_nil] at hl ⊢
      omega
    have h3 := ih (l ++ [p]) h2
    simp only [fifo] at h3
    simp only [fifo, List.map_cons, List.foldl_cons, fifoPasso, if_pos h1, h3,
      List.append_assoc, List.singleton_append]

theorem enqueue_frente {N : Nat} (p : Peca) (s s1 : Estado N) (out : List Saida)
    (h : enqueue p s = some (s1, out)) : s1.frente = s.frente := by
  unfold enqueue at h
  split at h
  · cases h
    rfl
  · cases hw : escrever s.fila_pecas (Int.tmod (intAdd s.fim 1) N) p with
    | none => simp [hw] at h
    | some fila =>
      simp only [hw] at h
      cases h
      rfl

theorem executar_enqs_frente {N : Nat} : ∀ (ps : List Peca) (s s1 : Estado N),
    executar (ps.map Chamada.enq) s = some s1 → s1.frente = s.frente := by
  intro ps
  induction ps with
  | nil =>
    intro s s1 h
    cases h
    rfl
  | cons p ps ih =>
    intro s s1 h
    simp only [List.map_cons, executar, executarChamada] at h
    cases he : enqueue p s with
    | none => simp [he] at h
    | some r =>
      obtain ⟨s2, out⟩ := r
      simp only [he, Option.map_some'] at h
      rw [ih s2 s1 h, enqueue_frente p s s2 out he]

theorem wrapInt_add_wrapInt (a b : Int) : wrapInt (wrapInt a + b) = wrapInt (a + b) := by
  unfold wrapInt
  omega

theorem dequeue_proximo_id {N : Nat} (lixo : Char) (s s1 : Estado N) (r : Peca × List Saida)
    (h : dequeue lixo s = some (s1, r)) : s1.proximo_id = s.proximo_id := by
  unfold dequeue at h
  split at h
  · cases h
    rfl
  · cases hl : ler s.fila_pecas s.frente with
    | none => simp [hl] at h
    | some pc =>
      simp only [hl] at h
      cases h
      rfl

theorem enqueue_proximo_id {N : Nat} (p : Peca) (s s1 : Estado N) (out : List Saida)
    (h : enqueue p s = some (s1, out)) : s1.proximo_id = s.proximo_id := by
  unfold enqueue at h
  split at h
  · cases h
    rfl
  · cases hw : escrever s.fila_pecas (Int.tmod (intAdd s.fim 1) N) p with
    | none => simp [hw] at h
    | some fila =>
      simp only [hw] at h
      cases h
      rfl

theorem exibirFila_estado {N : Nat} (s s1 : Estado N) (out : List Saida)
    (h : exibirFila s = some (s1, out)) : s1 = s := by
  unfold exibirFila at h
  split at h
  · cases h
    rfl
  · cases hl : exibirLaco s s.contador.toNat 0 with
    | none => simp [hl] at h
    | some itens =>
      simp only [hl] at h
      cases h
      rfl

theorem geradas_ids {N : Nat} (hN : N ≤ 1073741824) : ∀ (ops : List Chamada) (s : Estado N),
    Inv s → wrapInt s.proximo_id = s.proximo_id →
    (geradas ops s).map Peca.id =
      (List.range (ops.countP ehGerar)).map (fun (k : Nat) => wrapInt (s.proximo_id + k)) := by
  intro ops
  induction ops with
  | nil =>
    intro s _ _
    rfl
  | cons c cs ih =>
    intro s hI hp
    obtain ⟨s1, he, hI1, _⟩ := passo_simula hN c s hI
    cases c with
    | gerar r =>
      obtain ⟨nome, _, hg⟩ := @gerarPeca_eq N r s
      have hs1 : s1 = { s with proximo_id := intAdd s.proximo_id 1 } := by
        simp only [executarChamada, hg, Option.map_some', Option.some.injEq] at he
        exact he.symm
      subst hs1
      have hw : wrapInt (intAdd s.proximo_id 1) = intAdd s.proximo_id 1 :=
        wrapInt_eq _ (wrapInt_range _).1 (wrapInt_range _).2
      have h1 := ih _ hI1 hw
      simp only [geradas, hg, List.map_cons, h1, List.countP_cons, ehGerar, if_true,
        List.range_succ_eq_map, List.map_map]
      congr 1
      · simp only [Nat.cast_zero, Int.add_zero]
        exact hp.symm
      · apply List.map_congr_left
        intro k _
        simp only [Function.comp, intAdd, wrapInt_add_wrapInt, Nat.cast_succ]
        congr 1
        omega
    | enq p =>
      have hpid : s1.proximo_id = s.proximo_id := by
        simp only [executarChamada] at he
        cases hq : enqueue p s with
        | none => simp [hq] at he
        | some r =>
          obtain ⟨s2, out⟩ := r
          simp only [hq, Option.map_some', Option.some.injEq] at he
          subst he
          exact enqueue_proximo_id p s s2 out hq
      have h1 := ih s1 hI1 (by rw [hpid]; exact hp)
      simp [geradas, he, h1, hpid, ehGerar]
    | deq lixo =>
      have hpid : s1.proximo_id = s.proximo_id := by
        simp only [executarChamada] at he
        cases hq : dequeue lixo s with
        | none => simp [hq] at he
        | some r =>
          obtain ⟨s2, out⟩ := r
          simp only [hq, Option.map_some', Option.some.injEq] at he
          subst he
          exact dequeue_proximo_id lixo s s2 out hq
      have h1 := ih s1 hI1 (by rw [hpid]; exact hp)
      simp [geradas, he, h1, hpid, ehGerar]
    | exibir =>
      have hpid : s1.proximo_id = s.proximo_id := by
        simp only [executarChamada] at he
        cases hq : exibirFila s with
        | none => simp [hq] at he
        | some r =>
          obtain ⟨s2, out⟩ := r
          simp only [hq, Option.map_some', Option.some.injEq] at he
          subst he
          rw [exibirFila_estado s s2 out hq]
      have h1 := ih s1 hI1 (by rw [hpid]; exact hp)
      simp [geradas, he, h1, hpid, ehGerar]

/-! ## The driver: `inicializarFila`, `menu`, `main` -/

theorem gerarPeca_nat {N : Nat} (r : Nat) (s : Estado N) :
    gerarPeca (r : Int) s =
      some ({ s with proximo_id := intAdd s.proximo_id 1 }, ⟨tipoDe r, s.proximo_id⟩) := by
  obtain ⟨nome, hn, _⟩ := tipos_get r
  have ht : Int.tmod (r : Int) 4 = ((r % 4 : Nat) : Int) := by
    rw [Int.tmod_eq_emod (by omega) (by omega)]
    omega
  have hd : tipoDe r = nome := by
    simp [tipoDe, List.getD_eq_getElem?_getD, hn]
  simp only [gerarPeca, ht, Int.toNat_ofNat, hn, hd]
  rw [if_pos (by omega)]

theorem enqueue_total {N : Nat} (hN : N ≤ 1073741824) (p : Peca) (s : Estado N) (hI : Inv s) :
    ∃ s1 out, enqueue p s = some (s1, out) ∧ Inv s1 := by
  by_cases hc : s.contador = N
  · exact ⟨s, _, by simp only [enqueue, if_pos hc]; rfl, hI⟩
  · obtain ⟨s1, he, _, _, _, _, _, hI1, _⟩ := enqueue_aceita hN p s hI hc
    exact ⟨s1, _, he, hI1⟩

theorem dequeue_total {N : Nat} (hN : N ≤ 1073741824) (lixo : Char) (s : Estado N)
    (hI : Inv s) : ∃ s1 pc out, dequeue lixo s = some (s1, pc, out) ∧ Inv s1 := by
  by_cases hc : s.contador = 0
  · exact ⟨s, _, _, by simp only [dequeue, if_pos hc]; rfl, hI⟩
  · obtain ⟨s1, he, _, _, _, _, _, hI1⟩ := dequeue_aceita hN lixo s hI hc
    exact ⟨s1, _, _, he, hI1⟩

theorem enfileirarGerada_total {N : Nat} (hN : N ≤ 1073741824) (r : Nat) (s : Estado N)
    (hI : Inv s) : ∃ s1 out, enfileirarGerada r s = some (s1, out) ∧ Inv s1 := by
  have hI1 : Inv ({ s with proximo_id := intAdd s.proximo_id 1 } : Estado N) := hI
  obtain ⟨s1, out, he, hI2⟩ := enqueue_total hN ⟨tipoDe r, s.proximo_id⟩ _ hI1
  exact ⟨s1, out, by simp only [enfileirarGerada, gerarPeca_nat, he], hI2⟩

theorem iteracao_inv {N : Nat} (hN : N ≤ 1073741824) (e : Entrada) (s : Estado N)
    (hI : Inv s) : ∃ s1 out, iteracao e s = some (s1, opcaoDe e, out) ∧ Inv s1 := by
  obtain ⟨out1, he, _⟩ := exibirFila_eq hN s hI
  by_cases h1 : (menu e.leitura).1 = 1
  · obtain ⟨s2, pc, out3, hd, hI2⟩ := dequeue_total hN e.lixo s hI
    by_cases hid : pc.id ≠ -1
    · obtain ⟨s3, out4, hg, hI3⟩ := enfileirarGerada_total hN e.r s2 hI2
      exact ⟨s3, _, by simp only [iteracao, he, if_pos h1, hd, if_pos hid, hg, opcaoDe]; rfl, hI3⟩
    · exact ⟨s2, _, by simp only [iteracao, he, if_pos h1, hd, if_neg hid, opcaoDe]; rfl, hI2⟩
  · by_cases h2 : (menu e.leitura).1 = 2
    · obtain ⟨s2, out3, hg, hI2⟩ := enfileirarGerada_total hN e.r s hI
      exact ⟨s2, _, by simp only [iteracao, he, if_neg h1, if_pos h2, hg, opcaoDe]; rfl, hI2⟩
    · by_cases h0 : (menu e.leitura).1 = 0
      · exact ⟨s, _, by simp only [iteracao, he, if_neg h1, if_neg h2, if_pos h0, opcaoDe]; rfl, hI⟩
      · exact ⟨s, _, by simp only [iteracao, he, if_neg h1, if_neg h2, if_neg h0, opcaoDe]; rfl, hI⟩

theorem laco_inv {N : Nat} (hN : N ≤ 1073741824) : ∀ (es : List Entrada) (s : Estado N),
    Inv s → ∃ s1 t, laco es s = some (s1, t) ∧ Inv s1 := by
  intro es
  induction es with
  | nil =>
    intro s hI
    exact ⟨s, false, rfl, hI⟩
  | cons e es ih =>
    intro s hI
    obtain ⟨s1, out, he, hI1⟩ := iteracao_inv hN e s hI
    by_cases h0 : opcaoDe e ≠ 0
    · obtain ⟨s2, t, hl, hI2⟩ := ih s1 hI1
      exact ⟨s2, t, by simp only [laco, he, if_pos h0, hl], hI2⟩
    · exact ⟨s1, true, by simp only [laco, he, if_neg h0], hI1⟩

theorem inicializarLaco_inv {N : Nat} (hN : N ≤ 1073741824) (rand : Nat → Nat) :
    ∀ (n i : Nat) (s : Estado N), Inv s →
      ∃ s1 out, inicializarLaco rand n i s = some (s1, out) ∧ Inv s1 := by
  intro n
  induction n with
  | zero =>
    intro i s hI
    exact ⟨s, [], rfl, hI⟩
  | succ n ih =>
    intro i s hI
    have hI1 : Inv ({ s with proximo_id := intAdd s.proximo_id 1 } : Estado N) := hI
    obtain ⟨s2, out, he, hI2⟩ := enqueue_total hN ⟨tipoDe (rand i), s.proximo_id⟩ _ hI1
    obtain ⟨s3, resto, hl, hI3⟩ := ih (i + 1) s2 hI2
    exact ⟨s3, _, by simp only [inicializarLaco, gerarPeca_nat, he, hl]; rfl, hI3⟩

theorem main_inv {N : Nat} (hN0 : 0 < N) (hN : N ≤ 1073741824) (rand : Nat → Nat)
    (es : List Entrada) : ∃ s t, main N rand es = some (s, t) ∧ Inv s := by
  obtain ⟨s0, out, h0, hI0⟩ := inicializarLaco_inv hN rand N 0 (inicial N) (inv_inicial hN0)
  obtain ⟨s1, t, hl, hI1⟩ := laco_inv hN es s0 hI0
  exact ⟨s1, t, by simp only [main, inicializarFila, h0, hl], hI1⟩

theorem noLaco_inv {N : Nat} (hN0 : 0 < N) (hN : N ≤ 1073741824) (s : Estado N)
    (h : NoLaco s) : Inv s := by
  obtain ⟨rand, es, hm⟩ := h
  obtain ⟨s1, t, hm1, hI⟩ := main_inv hN0 hN rand es
  rw [hm1] at hm
  cases hm
  exact hI

theorem inicializarFila_campos (rand : Nat → Nat) :
    ∃ s, inicializarFila rand (inicial CAPACIDADE_MAXIMA) =
        some (s, [Saida.inicializando 5, Saida.enqueueOk (tipoDe (rand 0)) 0,
          Saida.enqueueOk (tipoDe (rand 1)) 1, Saida.enqueueOk (tipoDe (rand 2)) 2,
          Saida.enqueueOk (tipoDe (rand 3)) 3, Saida.inicializada]) ∧
      s.frente = 0 ∧ s.fim = 4 ∧ s.contador = 5 ∧ s.proximo_id = 5 ∧
      ∀ i : Fin CAPACIDADE_MAXIMA, s.fila_pecas i = ⟨tipoDe (rand i.val), (i.val : Int)⟩ := by
  have h5 : @inicializarLaco CAPACIDADE_MAXIMA rand CAPACIDADE_MAXIMA =
      inicializarLaco rand 5 := rfl
  simp only [inicializarFila, h5, inicializarLaco, gerarPeca_nat]
  refine ⟨_, rfl, rfl, rfl, rfl, rfl, ?_⟩
  intro i
  fin_cases i <;> rfl

theorem inicializarFila_eq (rand : Nat → Nat) :
    inicializarFila rand (inicial CAPACIDADE_MAXIMA) =
      some (estadoPreparado rand,
        [Saida.inicializando 5, Saida.enqueueOk (tipoDe (rand 0)) 0,
          Saida.enqueueOk (tipoDe (rand 1)) 1, Saida.enqueueOk (tipoDe (rand 2)) 2,
          Saida.enqueueOk (tipoDe (rand 3)) 3, Saida.inicializada]) := by
  obtain ⟨s, h, hfr, hfim, hc, hp, hfila⟩ := inicializarFila_campos rand
  have hs : s = estadoPreparado rand := by
    cases s with
    | mk a x y z w =>
      simp only at hfr hfim hc hp hfila
      subst hfr hfim hc hp
      have ha : a = fun i => ⟨tipoDe (rand i.val), (i.val : Int)⟩ := funext hfila
      subst ha
      rfl
  rw [h, hs]

theorem enfileirarGerada_cheia {N : Nat} (r : Nat) (s : Estado N) (hc : s.contador = N) :
    enfileirarGerada r s = some ({ s with proximo_id := intAdd s.proximo_id 1 },
      [Saida.filaCheia (tipoDe r) s.proximo_id]) := by
  have hc1 : ({ s with proximo_id := intAdd s.proximo_id 1 } : Estado N).contador = N := hc
  simp only [enfileirarGerada, gerarPeca_nat, enqueue, if_pos hc1]

theorem iteracao_inserir {N : Nat} (hN : N ≤ 1073741824) (e : Entrada) (s : Estado N)
    (hI : Inv s) (hc : s.contador = N) (h2 : opcaoDe e = 2) :
    ∃ out1, exibirFila s = some (s, out1) ∧
      iteracao e s = some ({ s with proximo_id := intAdd s.proximo_id 1 }, 2,
        out1 ++ (menu e.leitura).2 ++ [Saida.filaCheia (tipoDe e.r) s.proximo_id]) := by
  obtain ⟨out1, he, _⟩ := exibirFila_eq hN s hI
  have h2m : (menu e.leitura).1 = 2 := h2
  have h1 : ¬ (menu e.leitura).1 = 1 := by omega
  have hc1 : ({ s with proximo_id := intAdd s.proximo_id 1 } : Estado N).contador = N := hc
  refine ⟨out1, he, ?_⟩
  simp only [iteracao, he, if_neg h1, if_pos h2m, enfileirarGerada_cheia e.r s hc]
  rw [h2m]

theorem iteracao_outra {N : Nat} (hN : N ≤ 1073741824) (e : Entrada) (s : Estado N)
    (hI : Inv s) (h1 : opcaoDe e ≠ 1) (h2 : opcaoDe e ≠ 2) :
    ∃ out1, exibirFila s = some (s, out1) ∧
      iteracao e s = some (s, opcaoDe e,
        out1 ++ (menu e.leitura).2 ++
          [if opcaoDe e = 0 then Saida.terminou else Saida.invalida]) := by
  obtain ⟨out1, he, _⟩ := exibirFila_eq hN s hI
  have h1m : ¬ (menu e.leitura).1 = 1 := h1
  have h2m : ¬ (menu e.leitura).1 = 2 := h2
  refine ⟨out1, he, ?_⟩
  by_cases h0 : (menu e.leitura).1 = 0
  · have h0o : opcaoDe e = 0 := h0
    simp only [iteracao, he, if_neg h1m, if_neg h2m, if_pos h0, if_pos h0o, opcaoDe]
  · have h0o : ¬ opcaoDe e = 0 := h0
    simp only [iteracao, he, if_neg h1m, if_neg h2m, if_neg h0, if_neg h0o, opcaoDe]

theorem wrapInt_ne_menos_um (k : Nat) (h : k < 4294967295) : wrapInt (k : Int) ≠ -1 := by
  unfold wrapInt
  omega

theorem iteracao_jogar {N : Nat} (hN : N ≤ 1073741824) (e : Entrada) (s : Estado N)
    (G : Nat) (ks : List Nat) (hK : InvDriver s G ks) (hG : G ≤ 4294967295)
    (h1 : opcaoDe e = 1) :
    ∃ s1 out1 pc l, exibirFila s = some (s, out1) ∧
      iteracao e s = some (s1, 1,
        out1 ++ (menu e.leitura).2 ++ [Saida.dequeueOk pc.nome pc.id] ++ []) ∧
      conteudo s = pc :: l ∧ conteudo s1 = l ++ [⟨tipoDe e.r, s.proximo_id⟩] ∧
      s1.proximo_id = intAdd s.proximo_id 1 ∧ pc.id ≠ -1 ∧
      InvDriver s1 (G + 1) (ks.tail ++ [G]) := by
  obtain ⟨hI, hc, hp, hpw, hlt, hids⟩ := hK
  obtain ⟨out1, he, _⟩ := exibirFila_eq hN s hI
  have hI0 := hI
  obtain ⟨i1, i2, i3, i4, i5, i6, i7, i8⟩ := hI
  have hne : s.contador ≠ 0 := by omega
  obtain ⟨s2, hd, hf2, hn2, hfim2, hp2, hs2, hI2⟩ := dequeue_aceita hN e.lixo s hI0 hne
  have hcd := conteudo_dequeue s s2 hI0 hne hf2 hn2 hs2
  -- the head of the queue is a generated piece, whose id is not the sentinel
  rw [hcd] at hids
  cases ks with
  | nil => simp at hids
  | cons k0 ks1 =>
    have hid0 : (slot s.fila_pecas s.frente.toNat).id = wrapInt (k0 : Int) :=
      (List.cons.inj hids).1
    have hids1 : (conteudo s2).map Peca.id = ks1.map (fun (k : Nat) => wrapInt (k : Int)) :=
      (List.cons.inj hids).2
    have hk0 : k0 < G := hlt k0 (List.mem_cons_self _ _)
    have hpc : (slot s.fila_pecas s.frente.toNat).id ≠ -1 := by
      rw [hid0]
      exact wrapInt_ne_menos_um k0 (by omega)
    have hI2g : Inv ({ s2 with proximo_id := intAdd s2.proximo_id 1 } : Estado N) := hI2
    have hne2 : ({ s2 with proximo_id := intAdd s2.proximo_id 1 } : Estado N).contador ≠ N := by
      show s2.contador ≠ N
      omega
    obtain ⟨s3, hq, hf3, hn3, _, hp3, hs3, hI3, _⟩ :=
      enqueue_aceita hN ⟨tipoDe e.r, s2.proximo_id⟩ _ hI2g hne2
    have hce := conteudo_enqueue ⟨tipoDe e.r, s2.proximo_id⟩ _ s3 hI2g hne2 hf3 hn3 hs3
    have hcg : conteudo ({ s2 with proximo_id := intAdd s2.proximo_id 1 } : Estado N) =
        conteudo s2 := rfl
    rw [hcg] at hce
    have hn3' : s3.contador = s2.contador + 1 := hn3
    have hp3' : s3.proximo_id = intAdd s2.proximo_id 1 := hp3
    have hout : ¬ (s2.contador + 1 < (N : Int)) := by omega
    have hq' : enqueue ⟨tipoDe e.r, s2.proximo_id⟩
        ({ s2 with proximo_id := intAdd s2.proximo_id 1 } : Estado N) = some (s3, []) := by
      rw [hq]
      show some (s3, if s2.contador + 1 < (N : Int) then _ else _) = _
      rw [if_neg hout]
    have h1m : (menu e.leitura).1 = 1 := h1
    refine ⟨s3, out1, slot s.fila_pecas s.frente.toNat, conteudo s2, he, ?_, hcd, ?_, ?_, hpc,
      hI3, ?_, ?_, ?_, ?_, ?_⟩
    · simp only [iteracao, he, if_pos h1m, hd, if_pos hpc, enfileirarGerada, gerarPeca_nat, hq']
      rw [h1m]
    · rw [hce, hp2]
    · rw [hp3', hp2]
    · omega
    · rw [hp3', hp2, hp, intAdd, wrapInt_add_wrapInt]
      rfl
    · simp only [List.tail_cons]
      rw [List.pairwise_append]
      refine ⟨(List.pairwise_cons.mp hpw).2, List.pairwise_singleton _ _, ?_⟩
      intro a ha b hb
      rw [List.mem_singleton] at hb
      rw [hb]
      exact hlt a (List.mem_cons_of_mem _ ha)
    · intro k hk
      simp only [List.tail_cons, List.mem_append, List.mem_singleton] at hk
      rcases hk with hk | hk
      · have := hlt k (List.mem_cons_of_mem _ hk)
        omega
      · omega
    · simp only [List.tail_cons, List.map_append, List.map_cons, List.map_nil]
      rw [hce, List.map_append, hids1, hp2, hp]
      rfl

theorem invDriver_inserir {N : Nat} (s : Estado N) (G : Nat) (ks : List Nat)
    (hK : InvDriver s G ks) :
    InvDriver ({ s with proximo_id := intAdd s.proximo_id 1 } : Estado N) (G + 1) ks := by
  obtain ⟨hI, hc, hp, hpw, hlt, hids⟩ := hK
  refine ⟨hI, hc, ?_, hpw, ?_, hids⟩
  · show intAdd s.proximo_id 1 = wrapInt ((G + 1 : Nat) : Int)
    rw [hp, intAdd, wrapInt_add_wrapInt]
    rfl
  · intro k hk
    have := hlt k hk
    omega

theorem gera_eq (e : Entrada) : gera e = true ↔ (opcaoDe e = 1 ∨ opcaoDe e = 2) := by
  simp [gera]

theorem laco_cheia {N : Nat} (hN : N ≤ 1073741824) : ∀ (es : List Entrada) (s : Estado N)
    (G : Nat) (ks : List Nat), InvDriver s G ks → G + es.countP gera ≤ 4294967295 →
    ∃ s1 t G1 ks1, laco es s = some (s1, t) ∧ InvDriver s1 G1 ks1 ∧ G ≤ G1 ∧
      G1 ≤ G + es.countP gera ∧ (∀ k ∈ ks1, k ∈ ks ∨ G ≤ k) := by
  intro es
  induction es with
  | nil =>
    intro s G ks hK _
    exact ⟨s, false, G, ks, rfl, hK, Nat.le_refl _, by simp, fun k hk => Or.inl hk⟩
  | cons e es ih =>
    intro s G ks hK hb
    by_cases h1 : opcaoDe e = 1
    · have hg : gera e = true := (gera_eq e).2 (Or.inl h1)
      rw [List.countP_cons_of_pos _ _ hg] at hb ⊢
      obtain ⟨s1, out1, pc, l, _, hit, _, _, _, _, hK1⟩ :=
        iteracao_jogar hN e s G ks hK (by omega) h1
      obtain ⟨s2, t, G2, ks2, hl, hK2, hle, hle2, hmem⟩ := ih s1 (G + 1) _ hK1 (by omega)
      refine ⟨s2, t, G2, ks2, ?_, hK2, by omega, by omega, ?_⟩
      · simp only [laco, hit]
        rw [if_pos (by decide)]
        exact hl
      · intro k hk
        rcases hmem k hk with h | h
        · rw [List.mem_append, List.mem_singleton] at h
          rcases h with h | h
          · exact Or.inl (List.mem_of_mem_tail h)
          · exact Or.inr (by omega)
        · exact Or.inr (by omega)
    · by_cases h2 : opcaoDe e = 2
      · have hg : gera e = true := (gera_eq e).2 (Or.inr h2)
        rw [List.countP_cons_of_pos _ _ hg] at hb ⊢
        obtain ⟨out1, _, hit⟩ := iteracao_inserir hN e s hK.1 hK.2.1 h2
        obtain ⟨s2, t, G2, ks2, hl, hK2, hle, hle2, hmem⟩ :=
          ih _ (G + 1) ks (invDriver_inserir s G ks hK) (by omega)
        refine ⟨s2, t, G2, ks2, ?_, hK2, by omega, by omega, ?_⟩
        · simp only [laco, hit]
          rw [if_pos (by decide)]
          exact hl
        · intro k hk
          rcases hmem k hk with h | h
          · exact Or.inl h
          · exact Or.inr (by omega)
      · have hg : ¬ gera e = true := fun h => by
          rcases (gera_eq e).1 h with h | h
          · exact h1 h
          · exact h2 h
        rw [List.countP_cons_of_neg _ _ hg] at hb ⊢
        obtain ⟨out1, _, hit⟩ := iteracao_outra hN e s hK.1 h1 h2
        by_cases h0 : opcaoDe e ≠ 0
        · obtain ⟨s2, t, G2, ks2, hl, hK2, hle, hle2, hmem⟩ := ih s G ks hK hb
          refine ⟨s2, t, G2, ks2, ?_, hK2, hle, hle2, hmem⟩
          simp only [laco, hit]
          rw [if_pos h0]
          exact hl
        · refine ⟨s, true, G, ks, ?_, hK, Nat.le_refl _, by omega, fun k hk => Or.inl hk⟩
          simp only [laco, hit]
          rw [if_neg h0]

theorem laco_append {N : Nat} : ∀ (es es2 : List Entrada) (s s1 : Estado N),
    laco es s = some (s1, false) → laco (es ++ es2) s = laco es2 s1 := by
  intro es
  induction es with
  | nil =>
    intro es2 s s1 h
    simp only [laco, Option.some.injEq, Prod.mk.injEq] at h
    rw [h.1]
    rfl
  | cons e es ih =>
    intro es2 s s1 h
    simp only [laco, List.cons_append] at h ⊢
    cases hit : iteracao e s with
    | none => simp [hit] at h
    | some r =>
      obtain ⟨s2, opcao, out⟩ := r
      simp only [hit] at h ⊢
      by_cases h0 : opcao ≠ 0
      · rw [if_pos h0] at h ⊢
        exact ih es2 s2 s1 h
      · rw [if_neg h0] at h
        simp at h

theorem laco_inserir {N : Nat} (hN : N ≤ 1073741824) (e : Entrada) (h2 : opcaoDe e = 2) :
    ∀ (m : Nat) (resto : List Entrada) (s : Estado N), Inv s → s.contador = N →
      wrapInt s.proximo_id = s.proximo_id →
      laco (List.replicate m e ++ resto) s =
        laco resto { s with proximo_id := wrapInt (s.proximo_id + (m : Int)) } := by
  intro m
  induction m with
  | zero =>
    intro resto s _ _ hp
    have hs : ({ s with proximo_id := wrapInt (s.proximo_id + ((0 : Nat) : Int)) } : Estado N) =
        s := by
      rw [Nat.cast_zero, Int.add_zero, hp]
    rw [hs]
    rfl
  | succ m ih =>
    intro resto s hI hc hp
    obtain ⟨out1, _, hit⟩ := iteracao_inserir hN e s hI hc h2
    have hI1 : Inv ({ s with proximo_id := intAdd s.proximo_id 1 } : Estado N) := hI
    have h3 := ih resto _ hI1 hc (wrapInt_eq _ (wrapInt_range _).1 (wrapInt_range _).2)
    rw [List.replicate_succ, List.cons_append]
    simp only [laco, hit]
    rw [if_pos (by decide), h3]
    have hw : wrapInt (intAdd s.proximo_id 1 + (m : Int)) =
        wrapInt (s.proximo_id + ((m + 1 : Nat) : Int)) := by
      rw [intAdd, wrapInt_add_wrapInt]
      congr 1
      omega
    show laco resto ({ s with proximo_id := wrapInt (intAdd s.proximo_id 1 + (m : Int)) }) = _
    rw [hw]

theorem invDriver_preparado (rand : Nat → Nat) :
    InvDriver (estadoPreparado rand) 5 [0, 1, 2, 3, 4] := by
  refine ⟨?_, rfl, ?_, by decide, by decide, ?_⟩
  · simp only [Inv, estadoPreparado, CAPACIDADE_MAXIMA]
    omega
  · show (5 : Int) = wrapInt ((5 : Nat) : Int)
    decide
  · have h : ∀ k : Nat, k < 5 → wrapInt (k : Int) = (k : Int) := fun k hk =>
      wrapInt_eq _ (by omega) (by omega)
    simp only [List.map_cons, List.map_nil, h 0 (by omega), h 1 (by omega), h 2 (by omega),
      h 3 (by omega), h 4 (by omega)]
    rfl

theorem main_eq (rand : Nat → Nat) (es : List Entrada) :
    main CAPACIDADE_MAXIMA rand es = laco es (estadoPreparado rand) := by
  simp only [main, inicializarFila_eq]

theorem main_cheia (rand : Nat → Nat) (es : List Entrada)
    (hb : 5 + es.countP gera ≤ 4294967295) :
    ∃ s t G ks, main CAPACIDADE_MAXIMA rand es = some (s, t) ∧ InvDriver s G ks ∧ 5 ≤ G ∧
      G ≤ 5 + es.countP gera ∧ (∀ k ∈ ks, k < 5 ∨ 5 ≤ k) := by
  obtain ⟨s, t, G, ks, hl, hK, h1, h2, _⟩ :=
    laco_cheia capacidade_ok es (estadoPreparado rand) 5 _ (invDriver_preparado rand) hb
  exact ⟨s, t, G, ks, by rw [main_eq, hl], hK, h1, h2, fun k _ => by omega⟩

theorem noLaco_preparado (rand : Nat → Nat) : NoLaco (estadoPreparado rand) :=
  ⟨rand, [], by rw [main_eq]; rfl⟩

theorem alcancavel_inicial (N : Nat) : Alcancavel (inicial N) := ⟨[], rfl⟩

theorem indice_laco {N : Nat} (hN : N ≤ 1073741824) (s : Estado N) (hI : Inv s) (i : Nat)
    (hi : (i : Int) < s.contador) :
    Int.tmod (intAdd s.frente i) N = (((s.frente.toNat + i) % N : Nat) : Int) := by
  obtain ⟨h1, h2, h3, h4, h5, h6, h7, h8⟩ := hI
  rw [intAdd_eq _ _ (by omega) (by omega)]
  rcases natMod_cases (s.frente.toNat + i) N (by omega) with ⟨ha, hb⟩ | ⟨ha, hb⟩
  · rw [hb, tmod_small _ _ (by omega) (by omega)]
    omega
  · rw [hb, tmod_wrap _ _ (by omega) (by omega)]
    omega

theorem passo_fim {N : Nat} (hN : N ≤ 1073741824) (c : Chamada) (s : Estado N) (hI : Inv s) :
    ∃ s1, executarChamada c s = some s1 ∧ Inv s1 ∧
      ((∃ p, c = Chamada.enq p ∧ s.contador ≠ N ∧ 0 ≤ s1.fim) ∨
        ((∀ p, c = Chamada.enq p → s.contador = N) ∧ s1.fim = s.fim ∧
          s1.frente = s.frente ∧ s1.contador = s.contador) ∨
        ((∃ lixo, c = Chamada.deq lixo) ∧ s.contador ≠ 0 ∧ s1.fim = s.fim ∧ 0 ≤ s.fim)) := by
  have hI0 := hI
  obtain ⟨h1, h2, h3, h4, h5, h6, h7, h8⟩ := hI
  cases c with
  | enq p =>
    by_cases hc : s.contador = N
    · refine ⟨s, ?_, hI0, Or.inr (Or.inl ⟨fun _ _ => hc, rfl, rfl, rfl⟩)⟩
      simp [executarChamada, enqueue, hc]
    · obtain ⟨s1, he, hf, hn, hfim, _, hs, hI1, _⟩ := enqueue_aceita hN p s hI0 hc
      refine ⟨s1, ?_, hI1, Or.inl ⟨p, rfl, hc, ?_⟩⟩
      · simp [executarChamada, he]
      · rw [hfim]
        omega
  | deq lixo =>
    by_cases hc : s.contador = 0
    · refine ⟨s, ?_, hI0, Or.inr (Or.inl ⟨(fun _ h => by cases h), rfl, rfl, rfl⟩)⟩
      simp [executarChamada, dequeue, hc]
    · obtain ⟨s1, he, hf, hn, hfim, _, hs, hI1⟩ := dequeue_aceita hN lixo s hI0 hc
      refine ⟨s1, ?_, hI1, Or.inr (Or.inr ⟨⟨lixo, rfl⟩, hc, hfim, ?_⟩)⟩
      · simp [executarChamada, he]
      · by_contra hneg
        have := h8 (by omega)
        omega
  | gerar r =>
    refine ⟨{ s with proximo_id := intAdd s.proximo_id 1 }, ?_, hI0,
      Or.inr (Or.inl ⟨(fun _ h => by cases h), rfl, rfl, rfl⟩)⟩
    simp [executarChamada, gerarPeca_nat]
  | exibir =>
    obtain ⟨out, he, _⟩ := exibirFila_eq hN s hI0
    refine ⟨s, ?_, hI0, Or.inr (Or.inl ⟨(fun _ h => by cases h), rfl, rfl, rfl⟩)⟩
    simp [executarChamada, he]

theorem executar_fim {N : Nat} (hN : N ≤ 1073741824) : ∀ (ops : List Chamada) (s : Estado N),
    Inv s → ∃ s1, executar ops s = some s1 ∧ Inv s1 ∧ (0 ≤ s.fim → 0 ≤ s1.fim) ∧
      (s.fim = -1 → (s1.fim = -1 ↔ aceitas ops s = [])) := by
  intro ops
  induction ops with
  | nil =>
    intro s hI
    exact ⟨s, rfl, hI, fun h => h, fun h => by simp [aceitas, h]⟩
  | cons c cs ih =>
    intro s hI
    obtain ⟨s1, he, hI1, hcase⟩ := passo_fim hN c s hI
    obtain ⟨s2, he2, hI2, hpos, hneg⟩ := ih s1 hI1
    obtain ⟨h1, h2, h3, h4, h5, h6, h7, h8⟩ := hI
    refine ⟨s2, by simp only [executar, he, he2], hI2, ?_, ?_⟩
    · intro h0
      rcases hcase with ⟨p, _, _, hf⟩ | ⟨_, hf, _, _⟩ | ⟨_, _, hf, _⟩
      · exact hpos hf
      · exact hpos (by omega)
      · exact hpos (by omega)
    · intro hm
      rcases hcase with ⟨p, hc, hne, hf⟩ | ⟨hall, hf, _, _⟩ | ⟨_, _, _, hf⟩
      · subst hc
        have h2pos := hpos hf
        simp only [aceitas, he, if_neg hne]
        constructor
        · intro h
          omega
        · intro h
          cases h
      · have hm1 : s1.fim = -1 := by omega
        rw [hneg hm1]
        cases c with
        | enq p =>
          have hc := hall p rfl
          simp only [aceitas, he, if_pos hc]
        | deq lixo => simp only [aceitas, he]
        | gerar r => simp only [aceitas, he]
        | exibir => simp only [aceitas, he]
      · omega

theorem invDriver_ids {N : Nat} (s : Estado N) (G : Nat) (ks : List Nat)
    (hK : InvDriver s G ks) (hG : G ≤ 2147483648) :
    (conteudo s).map Peca.id = ks.map (fun (k : Nat) => (k : Int)) := by
  obtain ⟨_, _, _, _, hlt, hids⟩ := hK
  rw [hids]
  apply List.map_congr_left
  intro k hk
  have := hlt k hk
  exact wrapInt_eq _ (by omega) (by omega)

theorem mem_ids {l : List Peca} {ks : List Nat}
    (h : l.map Peca.id = ks.map (fun (k : Nat) => (k : Int))) (p : Peca) (hp : p ∈ l) :
    ∃ k ∈ ks, p.id = (k : Int) := by
  have hmem : p.id ∈ l.map Peca.id := List.mem_map_of_mem _ hp
  rw [h, List.mem_map] at hmem
  obtain ⟨k, hk, hkp⟩ := hmem
  exact ⟨k, hk, hkp.symm⟩

theorem preparado_inserir (m : Nat) (resto : List Entrada) :
    main CAPACIDADE_MAXIMA (fun _ => 0) (List.replicate m entradaInserir ++ resto) =
      laco resto { estadoPreparado (fun _ => 0) with proximo_id := wrapInt (5 + (m : Int)) } := by
  rw [main_eq, laco_inserir capacidade_ok entradaInserir rfl m resto _
    (invDriver_preparado _).1 rfl (by decide)]
  rfl

/-! ## The claims -/

/-- C1. Order preservation: after every finite sequence of calls made from the initial
state of the program, the calls all return, the sequence enumerated by `exibirFila` is the
abstract FIFO list of the specification, `contador` is its length, and that list is the
sequence of the pieces the code accepted, in the order of their `enqueue`, without the
first ones, as many as the code accepted `dequeue` calls. -/
theorem fifo_order (ops : List Chamada) :
    ∃ s, executar ops (inicial CAPACIDADE_MAXIMA) = some s ∧
      snapshot s = some (fifo CAPACIDADE_MAXIMA ops []) ∧
      s.contador = ((fifo CAPACIDADE_MAXIMA ops []).length : Int) ∧
      fifo CAPACIDADE_MAXIMA ops [] =
        (aceitas ops (inicial CAPACIDADE_MAXIMA)).drop
          (removidas ops (inicial CAPACIDADE_MAXIMA)) := by
  obtain ⟨s, he, hI, hc, hd⟩ :=
    executar_simula capacidade_ok ops (inicial CAPACIDADE_MAXIMA) (inv_inicial (by decide))
  rw [conteudo_inicial] at hc hd
  refine ⟨s, he, ?_, ?_, ?_⟩
  · rw [snapshot_eq capacidade_ok s hI, hc]
  · rw [← hc, conteudo_length]
    have := hI.2.2.1
    omega
  · rw [← hc, hd, List.nil_append]

/-- C2. Full-queue rejection: in every state with `contador = CAPACIDADE_MAXIMA`, the call
`enqueue(p)` prints the message of the full queue and returns the state it was given,
with the same `contador`, `frente`, `fim`, array and id counter. -/
theorem enqueue_cheia (p : Peca) (s : Estado CAPACIDADE_MAXIMA)
    (h : s.contador = CAPACIDADE_MAXIMA) :
    enqueue p s = some (s, [Saida.filaCheia p.nome p.id]) := by
  simp only [enqueue, if_pos h]

theorem enqueue_cheia_witness :
    estadoCheio.contador = CAPACIDADE_MAXIMA ∧
      enqueue ⟨'T', 5⟩ estadoCheio = some (estadoCheio, [Saida.filaCheia 'T' 5]) :=
  ⟨rfl, enqueue_cheia ⟨'T', 5⟩ estadoCheio rfl⟩

/-- C3. Empty-queue rejection: in every state with `contador = 0`, the call `dequeue()`
prints the message of the empty queue, returns a piece whose `id` is `-1` and returns the
state it was given; the same holds, with the same returned piece, whatever the array holds
and wherever `frente` points, so that no slot of the array is read. -/
theorem dequeue_vazia (lixo : Char) (s : Estado CAPACIDADE_MAXIMA) (h : s.contador = 0) :
    dequeue lixo s = some (s, ⟨lixo, -1⟩, [Saida.filaVazia]) ∧
      ∀ (a : Fin CAPACIDADE_MAXIMA → Peca) (f : Int),
        dequeue lixo { s with fila_pecas := a, frente := f } =
          some ({ s with fila_pecas := a, frente := f }, ⟨lixo, -1⟩, [Saida.filaVazia]) := by
  constructor
  · simp only [dequeue, if_pos h]
  · intro a f
    have h1 : ({ s with fila_pecas := a, frente := f } : Estado CAPACIDADE_MAXIMA).contador = 0 := h
    simp only [dequeue, if_pos h1]

theorem dequeue_vazia_witness :
    estadoVazio.contador = 0 ∧
      dequeue 'x' estadoVazio = some (estadoVazio, ⟨'x', -1⟩, [Saida.filaVazia]) :=
  ⟨rfl, (dequeue_vazia 'x' estadoVazio rfl).1⟩

/-- C6. Occupancy and head bounds: every finite sequence of calls made from the initial
state of the program returns, and in the state it reaches `0 <= contador <= 5` and
`0 <= frente < 5`. -/
theorem limites (ops : List Chamada) :
    ∃ s, executar ops (inicial CAPACIDADE_MAXIMA) = some s ∧
      0 ≤ s.contador ∧ s.contador ≤ CAPACIDADE_MAXIMA ∧
      0 ≤ s.frente ∧ s.frente < CAPACIDADE_MAXIMA := by
  obtain ⟨s, he, hI, _, _⟩ :=
    executar_simula capacidade_ok ops (inicial CAPACIDADE_MAXIMA) (inv_inicial (by decide))
  obtain ⟨h1, h2, h3, h4, _⟩ := hI
  exact ⟨s, he, h3, h4, h1, h2⟩

/-- C4. Enqueue postcondition: in every reachable state of the program with
`contador < CAPACIDADE_MAXIMA`, the call `enqueue(p)` is accepted: it returns, the array
after the call is the array before it with `p` written at index
`(frente + contador) mod 5`, `contador` is one more, `frente` is the same, and the
snapshot after the call is the snapshot before it followed by `p`. -/
theorem enqueue_post (p : Peca) (s : Estado CAPACIDADE_MAXIMA) (hr : Alcancavel s)
    (hc : s.contador < CAPACIDADE_MAXIMA) :
    ∃ s1 l, enqueue p s = some (s1, if s.contador + 1 < (CAPACIDADE_MAXIMA : Int) then
        [Saida.enqueueOk p.nome p.id] else []) ∧
      escrever s.fila_pecas ((s.frente + s.contador) % (CAPACIDADE_MAXIMA : Int)) p =
        some s1.fila_pecas ∧
      s1.contador = s.contador + 1 ∧ s1.frente = s.frente ∧
      snapshot s = some l ∧ snapshot s1 = some (l ++ [p]) := by
  have hI := alcancavel_inv (by decide) capacidade_ok s hr
  have hne : s.contador ≠ CAPACIDADE_MAXIMA := by omega
  obtain ⟨s1, he, hf, hn, _, _, hs, hI1, hw⟩ := enqueue_aceita capacidade_ok p s hI hne
  refine ⟨s1, conteudo s, he, ?_, hn, hf, snapshot_eq capacidade_ok s hI, ?_⟩
  · rw [← hw, ← indice_cast _ _ hI.1, Int.toNat_of_nonneg hI.2.2.1]
  · rw [snapshot_eq capacidade_ok s1 hI1, conteudo_enqueue p s s1 hI hne hf hn hs]

theorem enqueue_post_witness :
    Alcancavel estadoMeio ∧ estadoMeio.contador < CAPACIDADE_MAXIMA ∧
      ∃ s1 l, enqueue ⟨'T', 2⟩ estadoMeio = some (s1, if estadoMeio.contador + 1 <
          (CAPACIDADE_MAXIMA : Int) then [Saida.enqueueOk 'T' 2] else []) ∧
        escrever estadoMeio.fila_pecas
          ((estadoMeio.frente + estadoMeio.contador) % (CAPACIDADE_MAXIMA : Int)) ⟨'T', 2⟩ =
            some s1.fila_pecas ∧
        s1.contador = estadoMeio.contador + 1 ∧ s1.frente = estadoMeio.frente ∧
        snapshot estadoMeio = some l ∧ snapshot s1 = some (l ++ [⟨'T', 2⟩]) :=
  ⟨alcancavel_estadoMeio, by decide,
    enqueue_post ⟨'T', 2⟩ estadoMeio alcancavel_estadoMeio (by decide)⟩

/-- C5. Dequeue postcondition: in every reachable state of the program with
`contador > 0`, the call `dequeue()` returns the piece of slot `frente`, which is the first
piece of the snapshot; after it `frente` is `(frente + 1) mod 5`, `contador` is one less,
`fim`, the array and the id counter are the same, and the snapshot is the snapshot before
the call without its first piece. -/
theorem dequeue_post (lixo : Char) (s : Estado CAPACIDADE_MAXIMA) (hr : Alcancavel s)
    (hc : 0 < s.contador) :
    ∃ s1 pc l, dequeue lixo s = some (s1, pc, [Saida.dequeueOk pc.nome pc.id]) ∧
      ler s.fila_pecas s.frente = some pc ∧
      s1.frente = (s.frente + 1) % (CAPACIDADE_MAXIMA : Int) ∧
      s1.contador = s.contador - 1 ∧ s1.fim = s.fim ∧ s1.fila_pecas = s.fila_pecas ∧
      s1.proximo_id = s.proximo_id ∧
      snapshot s = some (pc :: l) ∧ snapshot s1 = some l := by
  have hI := alcancavel_inv (by decide) capacidade_ok s hr
  have hne : s.contador ≠ 0 := by omega
  obtain ⟨s1, he, hf, hn, hfim, hpid, hs, hI1⟩ := dequeue_aceita capacidade_ok lixo s hI hne
  refine ⟨s1, slot s.fila_pecas s.frente.toNat, conteudo s1, he,
    ler_eq s.fila_pecas s.frente hI.1 hI.2.1, ?_, hn, hfim, hs, hpid, ?_,
    snapshot_eq capacidade_ok s1 hI1⟩
  · rw [hf]
    exact (indice_cast _ _ hI.1 1).symm
  · rw [snapshot_eq capacidade_ok s hI, conteudo_dequeue s s1 hI hne hf hn hs]

theorem dequeue_post_witness :
    Alcancavel estadoMeio ∧ 0 < estadoMeio.contador ∧
      ∃ s1 pc l, dequeue 'x' estadoMeio = some (s1, pc, [Saida.dequeueOk pc.nome pc.id]) ∧
        ler estadoMeio.fila_pecas estadoMeio.frente = some pc ∧
        s1.frente = (estadoMeio.frente + 1) % (CAPACIDADE_MAXIMA : Int) ∧
        s1.contador = estadoMeio.contador - 1 ∧ s1.fim = estadoMeio.fim ∧
        s1.fila_pecas = estadoMeio.fila_pecas ∧ s1.proximo_id = estadoMeio.proximo_id ∧
        snapshot estadoMeio = some (pc :: l) ∧ snapshot s1 = some l :=
  ⟨alcancavel_estadoMeio, by decide, dequeue_post 'x' estadoMeio alcancavel_estadoMeio (by decide)⟩

/-- C8. The snapshot is read-only and complete: in every reachable state of the program,
`exibirFila` returns the state it was given (same `frente`, `fim`, `contador`, array and
id counter) and enumerates exactly `contador` pieces, the `i`-th being the content of the
slot `(frente + i) mod 5`, for `i = 0 .. contador - 1` in that order. -/
theorem exibirFila_leitura (s : Estado CAPACIDADE_MAXIMA) (hr : Alcancavel s) :
    ∃ out, exibirFila s = some (s, out) ∧
      ((pecasImpressas out).length : Int) = s.contador ∧
      (pecasImpressas out).map some = (List.range s.contador.toNat).map
        (fun (i : Nat) =>
          ler s.fila_pecas ((s.frente + (i : Int)) % (CAPACIDADE_MAXIMA : Int))) := by
  have hI := alcancavel_inv (by decide) capacidade_ok s hr
  obtain ⟨out, he, hp⟩ := exibirFila_eq capacidade_ok s hI
  refine ⟨out, he, ?_, ?_⟩
  · rw [hp, conteudo_length, Int.toNat_of_nonneg hI.2.2.1]
  · rw [hp, conteudo, List.map_map]
    apply List.map_congr_left
    intro i _
    have hj : (s.frente.toNat + i) % CAPACIDADE_MAXIMA < CAPACIDADE_MAXIMA :=
      Nat.mod_lt _ (by decide)
    rw [indice_cast _ _ hI.1, ler_eq _ _ (by omega) (by omega), Int.toNat_ofNat]
    rfl

theorem exibirFila_leitura_witness :
    Alcancavel estadoMeio ∧
      ∃ out, exibirFila estadoMeio = some (estadoMeio, out) ∧
        ((pecasImpressas out).length : Int) = estadoMeio.contador ∧
        (pecasImpressas out).map some = (List.range estadoMeio.contador.toNat).map
          (fun (i : Nat) => ler estadoMeio.fila_pecas
            ((estadoMeio.frente + (i : Int)) % (CAPACIDADE_MAXIMA : Int))) :=
  ⟨alcancavel_estadoMeio, exibirFila_leitura estadoMeio alcancavel_estadoMeio⟩

/-- C9. Capacity round-trip of the program: from the initial state, five `enqueue` calls
of any pieces `p0 .. p4` are all accepted and give `contador = 5`; a sixth `enqueue`
prints the message of the full queue and returns the same state; a `dequeue` then returns
`p0` and gives `contador = 4`; a following `enqueue` is accepted and gives `contador = 5`.
-/
theorem ida_e_volta (p0 p1 p2 p3 p4 p5 p6 : Peca) (lixo : Char) :
    ∃ s5 s6 s7,
      executar [Chamada.enq p0, Chamada.enq p1, Chamada.enq p2, Chamada.enq p3, Chamada.enq p4]
        (inicial CAPACIDADE_MAXIMA) = some s5 ∧
      s5.contador = 5 ∧ snapshot s5 = some [p0, p1, p2, p3, p4] ∧
      enqueue p5 s5 = some (s5, [Saida.filaCheia p5.nome p5.id]) ∧
      dequeue lixo s5 = some (s6, p0, [Saida.dequeueOk p0.nome p0.id]) ∧
      s6.contador = 4 ∧ snapshot s6 = some [p1, p2, p3, p4] ∧
      enqueue p6 s6 = some (s7, []) ∧
      s7.contador = 5 ∧ snapshot s7 = some [p1, p2, p3, p4, p6] :=
  ⟨_, _, _, rfl, rfl, rfl, rfl, rfl, rfl, rfl, rfl, rfl, rfl⟩

/-- C10. Wrap-around: for a queue of any capacity `N` (at least one slot, and small enough
for the `int` arithmetic of the indices), from the initial state, `N` calls of `enqueue`
with the pieces `p0 :: resto` are all accepted; a `dequeue` then returns `p0` and leaves
`contador = N - 1`; a following `enqueue` of `D` is accepted, sets `fim` to `0` and
stores `D` in slot `0` of the array, and the snapshot is then `resto` followed by `D`. -/
theorem volta_ao_inicio {N : Nat} (hN : N ≤ 1073741824) (p0 D : Peca) (resto : List Peca)
    (hlen : resto.length + 1 = N) (lixo : Char) :
    ∃ s1 s2 s3 out,
      executar ((p0 :: resto).map Chamada.enq) (inicial N) = some s1 ∧
      s1.contador = N ∧ snapshot s1 = some (p0 :: resto) ∧
      dequeue lixo s1 = some (s2, p0, [Saida.dequeueOk p0.nome p0.id]) ∧
      s2.contador = (N : Int) - 1 ∧
      enqueue D s2 = some (s3, out) ∧ s3.contador = N ∧
      s3.fim = 0 ∧ ler s3.fila_pecas 0 = some D ∧
      snapshot s3 = some (resto ++ [D]) := by
  have hN0 : 0 < N := by omega
  obtain ⟨s1, he1, hI1, hc1, _⟩ :=
    executar_simula hN ((p0 :: resto).map Chamada.enq) (inicial N) (inv_inicial hN0)
  rw [conteudo_inicial, fifo_enqs N (p0 :: resto) [] (by simp; omega), List.nil_append] at hc1
  have hfr1 : s1.frente = 0 := executar_enqs_frente (p0 :: resto) (inicial N) s1 he1
  have hcl1 := conteudo_length s1
  rw [hc1, List.length_cons, hlen] at hcl1
  have hcont1 : s1.contador = N := by
    have := hI1.2.2.1
    omega
  have hne1 : s1.contador ≠ 0 := by omega
  obtain ⟨s2, he2, hf2, hn2, hfim2, _, hs2, hI2⟩ := dequeue_aceita hN lixo s1 hI1 hne1
  have hcd := conteudo_dequeue s1 s2 hI1 hne1 hf2 hn2 hs2
  rw [hc1] at hcd
  have hp0 : slot s1.fila_pecas s1.frente.toNat = p0 := (List.cons.inj hcd).1.symm
  have hc2 : conteudo s2 = resto := (List.cons.inj hcd).2.symm
  rw [hp0] at he2
  have hne2 : s2.contador ≠ N := by omega
  obtain ⟨s3, he3, hf3, hn3, hfim3, _, hs3, hI3, _⟩ := enqueue_aceita hN D s2 hI2 hne2
  have hidx : (s2.frente.toNat + s2.contador.toNat) % N = 0 := by
    rw [hf2, Int.toNat_ofNat, hfr1]
    have hc2n : s2.contador.toNat = N - 1 := by omega
    rw [hc2n]
    rcases natMod_cases (Int.toNat 0 + 1) N (by simp; omega) with ⟨ha, hb⟩ | ⟨ha, hb⟩
    · rw [hb]
      simp only [Int.toNat_zero, Nat.zero_add]
      rw [show 1 + (N - 1) = N by omega]
      exact Nat.mod_self N
    · rw [hb]
      simp only [Int.toNat_zero, Nat.zero_add] at ha ⊢
      have hN1 : N = 1 := by omega
      subst hN1
      rfl
  rw [hidx] at hfim3 hs3
  refine ⟨s1, s2, s3, _, he1, hcont1, ?_, he2, ?_, he3, ?_, ?_, ?_, ?_⟩
  · rw [snapshot_eq hN s1 hI1, hc1]
  · rw [hn2, hcont1]
  · rw [hn3, hn2, hcont1]
    omega
  · rw [hfim3]
    rfl
  · rw [ler_eq s3.fila_pecas 0 (by omega) (by omega), hs3]
    simp
  · rw [snapshot_eq hN s3 hI3, conteudo_enqueue D s2 s3 hI2 hne2 hf3 hn3, hc2]
    rw [hidx]
    exact hs3

theorem volta_ao_inicio_witness :
    (3 : Nat) ≤ 1073741824 ∧ [(⟨'B', 1⟩ : Peca), ⟨'C', 2⟩].length + 1 = 3 ∧
      ∃ s1 s2 s3 out,
        executar (((⟨'A', 0⟩ : Peca) :: [⟨'B', 1⟩, ⟨'C', 2⟩]).map Chamada.enq) (inicial 3) =
          some s1 ∧
        s1.contador = (3 : Nat) ∧ snapshot s1 = some (⟨'A', 0⟩ :: [⟨'B', 1⟩, ⟨'C', 2⟩]) ∧
        dequeue 'x' s1 = some (s2, ⟨'A', 0⟩,
          [Saida.dequeueOk (⟨'A', 0⟩ : Peca).nome (⟨'A', 0⟩ : Peca).id]) ∧
        s2.contador = ((3 : Nat) : Int) - 1 ∧
        enqueue ⟨'D', 3⟩ s2 = some (s3, out) ∧ s3.contador = (3 : Nat) ∧
        s3.fim = 0 ∧ ler s3.fila_pecas 0 = some ⟨'D', 3⟩ ∧
        snapshot s3 = some ([⟨'B', 1⟩, ⟨'C', 2⟩] ++ [⟨'D', 3⟩]) :=
  ⟨by decide, by decide,
    volta_ao_inicio (by decide) ⟨'A', 0⟩ ⟨'D', 3⟩ [⟨'B', 1⟩, ⟨'C', 2⟩] (by decide) 'x'⟩

/-- C7, as the code has it. Unique, increasing ids while the counter fits an `int`: along
every sequence of calls made from the initial state of the program that holds at most
`2^31` calls of `gerarPeca`, the calls of `gerarPeca` all return and the `k`-th of them
(from `k = 0`) returns a piece with `id = k`, whatever the random values and the other
calls in between; and in every state `gerarPeca` returns, picks the kind from the random
value alone, takes the id from `proximo_id`, and changes nothing but `proximo_id`. -/
theorem ids_gerados (ops : List Chamada) (h : ops.countP ehGerar ≤ 2147483648) :
    (geradas ops (inicial CAPACIDADE_MAXIMA)).map Peca.id =
        (List.range (ops.countP ehGerar)).map (fun (k : Nat) => (k : Int)) ∧
      ∀ (r : Nat) (s : Estado CAPACIDADE_MAXIMA), ∃ nome, tipos[r % 4]? = some nome ∧
        gerarPeca (r : Int) s =
          some ({ s with proximo_id := intAdd s.proximo_id 1 }, ⟨nome, s.proximo_id⟩) := by
  constructor
  · rw [geradas_ids capacidade_ok ops (inicial CAPACIDADE_MAXIMA) (inv_inicial (by decide)) rfl]
    apply List.map_congr_left
    intro k hk
    rw [List.mem_range] at hk
    have h0 : (inicial CAPACIDADE_MAXIMA).proximo_id = 0 := rfl
    rw [h0, Int.zero_add]
    exact wrapInt_eq _ (by omega) (by omega)
  · intro r s
    obtain ⟨nome, hn, _⟩ := tipos_get r
    obtain ⟨nome1, _, hg⟩ := gerarPeca_eq r s
    refine ⟨nome, hn, ?_⟩
    have ht : Int.tmod (r : Int) 4 = ((r % 4 : Nat) : Int) := by
      rw [Int.tmod_eq_emod (by omega) (by omega)]
      omega
    simp only [gerarPeca, ht, Int.toNat_ofNat, hn]
    rw [if_pos (by omega)]

theorem ids_gerados_witness :
    [Chamada.gerar 7, Chamada.enq ⟨'L', 0⟩, Chamada.gerar 2, Chamada.deq 'x',
        Chamada.gerar 41].countP ehGerar ≤ 2147483648 ∧
      (geradas [Chamada.gerar 7, Chamada.enq ⟨'L', 0⟩, Chamada.gerar 2, Chamada.deq 'x',
        Chamada.gerar 41] (inicial CAPACIDADE_MAXIMA)).map Peca.id = [0, 1, 2] :=
  ⟨by decide, (ids_gerados [Chamada.gerar 7, Chamada.enq ⟨'L', 0⟩, Chamada.gerar 2,
    Chamada.deq 'x', Chamada.gerar 41] (by decide)).1⟩

/-- C7, as the spec states it, fails: in a run of `2^31 + 1` calls of `gerarPeca` from the
initial state, the call number `k = 2^31` returns the id `-2^31`, not `k`. -/
theorem contraexemplo_ids :
    ((geradas (List.replicate 2147483649 (Chamada.gerar 0))
        (inicial CAPACIDADE_MAXIMA)).map Peca.id)[2147483648]? = some (-2147483648) ∧
      (-2147483648 : Int) ≠ 2147483648 := by
  constructor
  · rw [geradas_ids capacidade_ok _ (inicial CAPACIDADE_MAXIMA) (inv_inicial (by decide)) rfl,
      List.countP_replicate, List.getElem?_map,
      if_pos (show ehGerar (Chamada.gerar 0) = true from rfl),
      List.getElem?_range (by omega)]
    rfl
  · omega

/-- C11. Priming fills the queue: started in the initial state of the program,
`inicializarFila` returns, for every sequence of random values, the state with
`contador = 5`, `frente = 0`, `fim = 4`, `proximo_id = 5` whose snapshot holds the five
generated pieces with the ids `0, 1, 2, 3, 4` in that order; it prints no message of a
full queue: none of its five `enqueue` calls is rejected. -/
theorem preparacao (rand : Nat → Nat) :
    inicializarFila rand (inicial CAPACIDADE_MAXIMA) =
        some (estadoPreparado rand,
          [Saida.inicializando 5, Saida.enqueueOk (tipoDe (rand 0)) 0,
            Saida.enqueueOk (tipoDe (rand 1)) 1, Saida.enqueueOk (tipoDe (rand 2)) 2,
            Saida.enqueueOk (tipoDe (rand 3)) 3, Saida.inicializada]) ∧
      (estadoPreparado rand).contador = 5 ∧ (estadoPreparado rand).frente = 0 ∧
      (estadoPreparado rand).fim = 4 ∧ (estadoPreparado rand).proximo_id = 5 ∧
      snapshot (estadoPreparado rand) =
        some [⟨tipoDe (rand 0), 0⟩, ⟨tipoDe (rand 1), 1⟩, ⟨tipoDe (rand 2), 2⟩,
          ⟨tipoDe (rand 3), 3⟩, ⟨tipoDe (rand 4), 4⟩] :=
  ⟨inicializarFila_eq rand, rfl, rfl, rfl, rfl, rfl⟩

/-- C13. Invalid input is harmless: in every state of the driver at the start of an
iteration, an iteration that reads an option other than `0`, `1` and `2` returns the same
state (same `frente`, `fim`, `contador`, array and `proximo_id`) and the loop goes on
with the next input; `menu` returns `-1`, such an option, when no integer could be read;
and after one iteration, whatever it reads, the loop has ended exactly when the option
was `0`. -/
theorem opcao_invalida (s : Estado CAPACIDADE_MAXIMA) (e : Entrada) (hs : NoLaco s)
    (h0 : opcaoDe e ≠ 0) (h1 : opcaoDe e ≠ 1) (h2 : opcaoDe e ≠ 2) :
    (∃ out, iteracao e s = some (s, opcaoDe e, out)) ∧
      (∀ es, laco (e :: es) s = laco es s) ∧
      (menu none).1 = -1 ∧
      (∀ e1 : Entrada, ∃ s1, laco [e1] s = some (s1, decide (opcaoDe e1 = 0))) := by
  have hI := noLaco_inv (by decide) capacidade_ok s hs
  obtain ⟨out1, _, hit⟩ := iteracao_outra capacidade_ok e s hI h1 h2
  refine ⟨⟨_, hit⟩, ?_, rfl, ?_⟩
  · intro es
    simp only [laco, hit]
    rw [if_pos h0]
  · intro e1
    obtain ⟨s1, out, hit1, _⟩ := iteracao_inv capacidade_ok e1 s hI
    refine ⟨s1, ?_⟩
    simp only [laco, hit1]
    by_cases hz : opcaoDe e1 = 0
    · rw [if_neg (by simpa using hz)]
      simp [hz]
    · rw [if_pos hz]
      simp [hz]

theorem opcao_invalida_witness :
    NoLaco (estadoPreparado (fun _ => 0)) ∧ opcaoDe ⟨none, 0, 'x'⟩ ≠ 0 ∧
      opcaoDe ⟨none, 0, 'x'⟩ ≠ 1 ∧ opcaoDe ⟨none, 0, 'x'⟩ ≠ 2 ∧
      ((∃ out, iteracao ⟨none, 0, 'x'⟩ (estadoPreparado (fun _ => 0)) =
          some (estadoPreparado (fun _ => 0), opcaoDe ⟨none, 0, 'x'⟩, out)) ∧
        (∀ es, laco (⟨none, 0, 'x'⟩ :: es) (estadoPreparado (fun _ => 0)) =
          laco es (estadoPreparado (fun _ => 0))) ∧
        (menu none).1 = -1 ∧
        (∀ e1 : Entrada, ∃ s1, laco [e1] (estadoPreparado (fun _ => 0)) =
          some (s1, decide (opcaoDe e1 = 0)))) :=
  ⟨noLaco_preparado _, by decide, by decide, by decide,
    opcao_invalida _ ⟨none, 0, 'x'⟩ (noLaco_preparado _) (by decide) (by decide) (by decide)⟩

/-- C14, as the code has it. Tail consistency: every finite sequence of calls made from
the initial state of the program returns, and in the state it reaches either no `enqueue`
was accepted yet and `fim = -1`, `frente = 0`, `contador = 0`, or an `enqueue` was accepted
and `fim` is `(frente + contador - 1) mod 5`, the remainder in `0 .. 4`. -/
theorem fim_consistente (ops : List Chamada) :
    ∃ s, executar ops (inicial CAPACIDADE_MAXIMA) = some s ∧
      ((aceitas ops (inicial CAPACIDADE_MAXIMA) = [] ∧ s.fim = -1 ∧ s.frente = 0 ∧
          s.contador = 0) ∨
        (aceitas ops (inicial CAPACIDADE_MAXIMA) ≠ [] ∧
          s.fim = (s.frente + s.contador - 1) % (CAPACIDADE_MAXIMA : Int))) := by
  obtain ⟨s, he, hI, _, hneg⟩ :=
    executar_fim capacidade_ok ops (inicial CAPACIDADE_MAXIMA) (inv_inicial (by decide))
  have hiff := hneg rfl
  obtain ⟨h1, h2, h3, h4, h5, h6, h7, h8⟩ := hI
  refine ⟨s, he, ?_⟩
  by_cases hf : s.fim = -1
  · exact Or.inl ⟨hiff.1 hf, hf, (h8 hf).1, (h8 hf).2⟩
  · refine Or.inr ⟨fun h => hf (hiff.2 h), ?_⟩
    simp only [CAPACIDADE_MAXIMA] at h2 h4 h6 h7 ⊢
    omega

/-- C14, as the spec states it, fails in the initial state of the program: there `fim` is
`-1`, while `(frente + contador - 1) mod 5` is `4`. -/
theorem contraexemplo_fim :
    executar [] (inicial CAPACIDADE_MAXIMA) = some (inicial CAPACIDADE_MAXIMA) ∧
      (inicial CAPACIDADE_MAXIMA).fim = -1 ∧
      ((inicial CAPACIDADE_MAXIMA).frente + (inicial CAPACIDADE_MAXIMA).contador - 1) %
        (CAPACIDADE_MAXIMA : Int) = 4 :=
  ⟨rfl, rfl, by decide⟩

/-- C16. The generated kind is in the alphabet: for every non-negative value `r` of
`rand()`, the index `r % 4` that `gerarPeca` uses lies in `0 .. 3`, the read of the table
`tipos` at it is in bounds, and `gerarPeca` returns a piece whose `nome` is one of `I`,
`O`, `T`, `L`; and each of the four kinds is returned for some non-negative value. -/
theorem tipo_no_alfabeto (r : Int) (s : Estado CAPACIDADE_MAXIMA) (h : 0 ≤ r) :
    0 ≤ Int.tmod r 4 ∧ Int.tmod r 4 < 4 ∧
      (∃ nome, tipos[(Int.tmod r 4).toNat]? = some nome ∧ nome ∈ ['I', 'O', 'T', 'L'] ∧
        gerarPeca r s =
          some ({ s with proximo_id := intAdd s.proximo_id 1 }, ⟨nome, s.proximo_id⟩)) ∧
      (∀ nome ∈ ['I', 'O', 'T', 'L'], ∃ r1 : Int, 0 ≤ r1 ∧
        gerarPeca r1 s =
          some ({ s with proximo_id := intAdd s.proximo_id 1 }, ⟨nome, s.proximo_id⟩)) := by
  have ht : Int.tmod r 4 = r % 4 := Int.tmod_eq_emod h (by omega)
  have hr : r = ((r.toNat : Nat) : Int) := (Int.toNat_of_nonneg h).symm
  obtain ⟨nome, hn, hm⟩ := tipos_get r.toNat
  obtain ⟨nome1, _, hg⟩ := gerarPeca_eq r.toNat s
  have hidx : (Int.tmod r 4).toNat = r.toNat % 4 := by
    rw [ht]
    omega
  refine ⟨by omega, by omega, ⟨nome, by rw [hidx]; exact hn, hm, ?_⟩, ?_⟩
  · have ht2 : Int.tmod r 4 = ((r.toNat % 4 : Nat) : Int) := by
      rw [ht]
      omega
    simp only [gerarPeca, ht2, Int.toNat_ofNat, hn]
    rw [if_pos (by omega)]
  · intro nome hnome
    simp only [List.mem_cons, List.mem_singleton, List.not_mem_nil, or_false] at hnome
    rcases hnome with h | h | h | h
    · exact ⟨0, by omega, by rw [h]; rfl⟩
    · exact ⟨1, by omega, by rw [h]; rfl⟩
    · exact ⟨2, by omega, by rw [h]; rfl⟩
    · exact ⟨3, by omega, by rw [h]; rfl⟩

theorem tipo_no_alfabeto_witness :
    (0 : Int) ≤ 7 ∧ Int.tmod 7 4 = 3 ∧
      gerarPeca 7 estadoCheio = some ({ estadoCheio with proximo_id := 6 }, ⟨'L', 5⟩) ∧
      0 ≤ Int.tmod (7 : Int) 4 ∧ Int.tmod (7 : Int) 4 < 4 :=
  ⟨by decide, by decide, rfl, (tipo_no_alfabeto 7 estadoCheio (by decide)).1,
    (tipo_no_alfabeto 7 estadoCheio (by decide)).2.1⟩

/-- C19. Array indexing is always in bounds: in every reachable state of the program,
the index at which `enqueue` writes (the updated `fim`), the index `frente` that
`dequeue` reads and the indices `(frente + i) % 5`, `i < contador`, that `exibirFila`
reads all lie in `0 .. 4`, and the three functions return; the initial state, where
`fim` is `-1`, is one of these states. -/
theorem indices_validos (s : Estado CAPACIDADE_MAXIMA) (p : Peca) (lixo : Char)
    (hr : Alcancavel s) :
    (0 ≤ Int.tmod (intAdd s.fim 1) CAPACIDADE_MAXIMA ∧
        Int.tmod (intAdd s.fim 1) CAPACIDADE_MAXIMA < CAPACIDADE_MAXIMA) ∧
      (0 ≤ s.frente ∧ s.frente < CAPACIDADE_MAXIMA) ∧
      (∀ i : Nat, (i : Int) < s.contador →
        0 ≤ Int.tmod (intAdd s.frente i) CAPACIDADE_MAXIMA ∧
          Int.tmod (intAdd s.frente i) CAPACIDADE_MAXIMA < CAPACIDADE_MAXIMA) ∧
      (∃ s1 out, enqueue p s = some (s1, out)) ∧
      (∃ s1 pc out, dequeue lixo s = some (s1, pc, out)) ∧
      (∃ out, exibirFila s = some (s, out)) ∧
      Alcancavel (inicial CAPACIDADE_MAXIMA) := by
  have hI := alcancavel_inv (by decide) capacidade_ok s hr
  have hmod : ∀ k : Nat, (0 : Int) ≤ ((k % CAPACIDADE_MAXIMA : Nat) : Int) ∧
      ((k % CAPACIDADE_MAXIMA : Nat) : Int) < CAPACIDADE_MAXIMA := by
    intro k
    have := Nat.mod_lt k (show 0 < CAPACIDADE_MAXIMA by decide)
    omega
  obtain ⟨s1, out, he, _⟩ := enqueue_total capacidade_ok p s hI
  obtain ⟨s2, pc, out2, hd, _⟩ := dequeue_total capacidade_ok lixo s hI
  obtain ⟨out3, hx, _⟩ := exibirFila_eq capacidade_ok s hI
  refine ⟨?_, ⟨hI.1, hI.2.1⟩, ?_, ⟨s1, out, he⟩, ⟨s2, pc, out2, hd⟩, ⟨out3, hx⟩,
    alcancavel_inicial _⟩
  · rw [fim_novo capacidade_ok s hI]
    exact hmod _
  · intro i hi
    rw [indice_laco capacidade_ok s hI i hi]
    exact hmod _

theorem indices_validos_witness :
    Alcancavel (inicial CAPACIDADE_MAXIMA) ∧
      (inicial CAPACIDADE_MAXIMA).fim = -1 ∧
      Int.tmod (intAdd (inicial CAPACIDADE_MAXIMA).fim 1) CAPACIDADE_MAXIMA = 0 ∧
      (0 ≤ Int.tmod (intAdd (inicial CAPACIDADE_MAXIMA).fim 1) CAPACIDADE_MAXIMA ∧
        Int.tmod (intAdd (inicial CAPACIDADE_MAXIMA).fim 1) CAPACIDADE_MAXIMA <
          CAPACIDADE_MAXIMA) :=
  ⟨alcancavel_inicial _, rfl, by decide,
    (indices_validos (inicial CAPACIDADE_MAXIMA) ⟨'I', 0⟩ 'x' (alcancavel_inicial _)).1⟩

/-- C12, as the code has it. The driver keeps the queue full while the id `-1` has not
been generated: for every sequence of random values and every finite sequence of inputs
of the loop that makes at most `2^32 - 1 - 5` calls of `gerarPeca`, `main` returns from
these iterations with `contador = 5`; and in the state reached an iteration that reads
the option `1` removes the head piece and appends one generated piece: the snapshot
after it is the snapshot before without its first piece, followed by a piece whose id is
the value `proximo_id` had before the iteration, and `contador` is `5` again. -/
theorem fila_sempre_cheia (rand : Nat → Nat) (es : List Entrada)
    (hb : 5 + es.countP gera ≤ 4294967295) :
    ∃ s t, main CAPACIDADE_MAXIMA rand es = some (s, t) ∧ s.contador = CAPACIDADE_MAXIMA ∧
      ∀ e : Entrada, opcaoDe e = 1 →
        ∃ s1 out pc l, iteracao e s = some (s1, 1, out) ∧ snapshot s = some (pc :: l) ∧
          snapshot s1 = some (l ++ [⟨tipoDe e.r, s.proximo_id⟩]) ∧
          s1.contador = CAPACIDADE_MAXIMA := by
  obtain ⟨s, t, G, ks, hm, hK, _, hG, _⟩ := main_cheia rand es hb
  refine ⟨s, t, hm, hK.2.1, ?_⟩
  intro e h1
  obtain ⟨s1, out1, pc, l, _, hit, hc, hc1, _, _, hK1⟩ :=
    iteracao_jogar capacidade_ok e s G ks hK (by omega) h1
  refine ⟨s1, _, pc, l, hit, ?_, ?_, hK1.2.1⟩
  · rw [snapshot_eq capacidade_ok s hK.1, hc]
  · rw [snapshot_eq capacidade_ok s1 hK1.1, hc1]

theorem fila_sempre_cheia_witness :
    5 + [(⟨some 1, 3, 'x'⟩ : Entrada), ⟨some 2, 0, 'x'⟩, ⟨none, 0, 'x'⟩].countP gera ≤
        4294967295 ∧
      ∃ s t, main CAPACIDADE_MAXIMA (fun i => i)
          [⟨some 1, 3, 'x'⟩, ⟨some 2, 0, 'x'⟩, ⟨none, 0, 'x'⟩] = some (s, t) ∧
        s.contador = CAPACIDADE_MAXIMA ∧
        ∀ e : Entrada, opcaoDe e = 1 →
          ∃ s1 out pc l, iteracao e s = some (s1, 1, out) ∧ snapshot s = some (pc :: l) ∧
            snapshot s1 = some (l ++ [⟨tipoDe e.r, s.proximo_id⟩]) ∧
            s1.contador = CAPACIDADE_MAXIMA :=
  ⟨by decide, fila_sempre_cheia (fun i => i)
    [⟨some 1, 3, 'x'⟩, ⟨some 2, 0, 'x'⟩, ⟨none, 0, 'x'⟩] (by decide)⟩

/-- C12, as the spec states it, fails: after the priming, `2^32 - 6` iterations that read
the option `2` and six iterations that read the option `1`, the loop has not ended and
`contador` is `4`. The first of the six queues a piece with the id `-1`; the sixth removes
it, and `main` takes it for the sign of an empty queue and queues no piece. -/
theorem contraexemplo_fila_cheia :
    (main CAPACIDADE_MAXIMA (fun _ => 0)
        (List.replicate 4294967290 entradaInserir ++ List.replicate 6 entradaJogar)).map
      (fun r => (r.1.contador, r.2)) = some (4, false) := by
  rw [preparado_inserir]
  rfl

/-- C15, as the code has it. The empty sentinel does not collide with a real piece while
the ids fit an `int`: for every sequence of random values and every finite sequence of
inputs of the loop that makes at most `2^31 - 5` calls of `gerarPeca`, in the state that
`main` reaches every queued piece has `id >= 0`; hence `dequeue` returns there a piece
with `id = -1` if and only if the queue is empty, and an iteration that reads the option
`1` removes a piece and queues a generated one. -/
theorem sentinela_livre (rand : Nat → Nat) (es : List Entrada)
    (hb : 5 + es.countP gera ≤ 2147483648) :
    ∃ s t l, main CAPACIDADE_MAXIMA rand es = some (s, t) ∧ snapshot s = some l ∧
      (∀ p ∈ l, 0 ≤ p.id) ∧
      (∀ lixo : Char, ∃ s1 pc out, dequeue lixo s = some (s1, pc, out) ∧
        (pc.id = -1 ↔ s.contador = 0)) ∧
      (∀ e : Entrada, opcaoDe e = 1 →
        ∃ s1 out, ∃ pc : Peca, iteracao e s = some (s1, 1, out) ∧
          Saida.dequeueOk pc.nome pc.id ∈ out ∧ pc.id ≠ -1 ∧
          snapshot s1 = some (l.tail ++ [⟨tipoDe e.r, s.proximo_id⟩])) := by
  obtain ⟨s, t, G, ks, hm, hK, _, hG, _⟩ := main_cheia rand es (by omega)
  have hids := invDriver_ids s G ks hK (by omega)
  have hpos : ∀ p ∈ conteudo s, 0 ≤ p.id := by
    intro p hp
    obtain ⟨k, _, hk⟩ := mem_ids hids p hp
    omega
  have hI := hK.1
  have hc : s.contador = CAPACIDADE_MAXIMA := hK.2.1
  have hne : s.contador ≠ 0 := by
    rw [hc]
    decide
  refine ⟨s, t, conteudo s, hm, snapshot_eq capacidade_ok s hI, hpos, ?_, ?_⟩
  · intro lixo
    obtain ⟨s1, hd, hf, hn, _, _, hs, _⟩ := dequeue_aceita capacidade_ok lixo s hI hne
    have hcd := conteudo_dequeue s s1 hI hne hf hn hs
    have hhead : 0 ≤ (slot s.fila_pecas s.frente.toNat).id :=
      hpos _ (by rw [hcd]; exact List.mem_cons_self _ _)
    refine ⟨s1, _, _, hd, ?_⟩
    constructor
    · intro h
      omega
    · intro h
      exact absurd h hne
  · intro e h1
    obtain ⟨s1, out1, pc, l, _, hit, hcs, hc1, _, hpc, hK1⟩ :=
      iteracao_jogar capacidade_ok e s G ks hK (by omega) h1
    refine ⟨s1, _, pc, hit, by simp, hpc, ?_⟩
    rw [snapshot_eq capacidade_ok s1 hK1.1, hc1, hcs]
    rfl

theorem sentinela_livre_witness :
    5 + [(⟨some 1, 3, 'x'⟩ : Entrada), ⟨some 2, 0, 'x'⟩, ⟨some 1, 1, 'y'⟩].countP gera ≤
        2147483648 ∧
      ∃ s t l, main CAPACIDADE_MAXIMA (fun i => i)
          [⟨some 1, 3, 'x'⟩, ⟨some 2, 0, 'x'⟩, ⟨some 1, 1, 'y'⟩] = some (s, t) ∧
        snapshot s = some l ∧ (∀ p ∈ l, 0 ≤ p.id) ∧
        (∀ lixo : Char, ∃ s1 pc out, dequeue lixo s = some (s1, pc, out) ∧
          (pc.id = -1 ↔ s.contador = 0)) ∧
        (∀ e : Entrada, opcaoDe e = 1 →
          ∃ s1 out, ∃ pc : Peca, iteracao e s = some (s1, 1, out) ∧
            Saida.dequeueOk pc.nome pc.id ∈ out ∧ pc.id ≠ -1 ∧
            snapshot s1 = some (l.tail ++ [⟨tipoDe e.r, s.proximo_id⟩])) :=
  ⟨by decide, sentinela_livre (fun i => i)
    [⟨some 1, 3, 'x'⟩, ⟨some 2, 0, 'x'⟩, ⟨some 1, 1, 'y'⟩] (by decide)⟩

/-- C15, as the spec states it, fails: after the priming, `2^31 - 5` iterations that read
the option `2` and one that reads the option `1`, the last queued piece has the id
`-2^31`, which is negative. -/
theorem contraexemplo_sentinela :
    (main CAPACIDADE_MAXIMA (fun _ => 0)
        (List.replicate 2147483643 entradaInserir ++ [entradaJogar])).bind
      (fun r => snapshot r.1) =
        some [⟨'I', 1⟩, ⟨'I', 2⟩, ⟨'I', 3⟩, ⟨'I', 4⟩, ⟨'I', -2147483648⟩] := by
  rw [preparado_inserir]
  rfl

/-- C17, as the code has it. In the driver, the option `2` leaves the queue as it is and
consumes an id, while the id counter fits an `int`: let `main` reach the state `s` at the
start of an iteration, let that iteration read the option `2`, and let the whole run,
with any further inputs `es2`, make at most `2^31 - 1 - 5` calls of `gerarPeca`. Then the
iteration prints the message of the full queue and returns `s` with `proximo_id`
increased by exactly `1`: `frente`, `fim`, `contador`, the array and the snapshot are the
same; and after the further inputs no queued piece has the id of the discarded piece. -/
theorem inserir_descarta (rand : Nat → Nat) (es es2 : List Entrada) (e : Entrada)
    (s : Estado CAPACIDADE_MAXIMA) (hm : main CAPACIDADE_MAXIMA rand es = some (s, false))
    (he : opcaoDe e = 2) (hb : 5 + (es ++ e :: es2).countP gera ≤ 2147483647) :
    (∃ out, iteracao e s = some ({ s with proximo_id := s.proximo_id + 1 }, 2, out) ∧
        Saida.filaCheia (tipoDe e.r) s.proximo_id ∈ out) ∧
      s.contador = CAPACIDADE_MAXIMA ∧
      snapshot ({ s with proximo_id := s.proximo_id + 1 } : Estado CAPACIDADE_MAXIMA) =
        snapshot s ∧
      ∃ s2 t l, main CAPACIDADE_MAXIMA rand (es ++ e :: es2) = some (s2, t) ∧
        snapshot s2 = some l ∧ ∀ p ∈ l, p.id ≠ s.proximo_id := by
  have hg : gera e = true := (gera_eq e).2 (Or.inr he)
  rw [List.countP_append, List.countP_cons_of_pos _ _ hg] at hb
  obtain ⟨s0, t0, G, ks, hm0, hK, _, hG, _⟩ := main_cheia rand es (by omega)
  rw [hm] at hm0
  cases hm0
  obtain ⟨out1, _, hit⟩ := iteracao_inserir capacidade_ok e s hK.1 hK.2.1 he
  have hp : s.proximo_id = (G : Int) := by
    rw [hK.2.2.1]
    exact wrapInt_eq _ (by omega) (by omega)
  have hinc : intAdd s.proximo_id 1 = s.proximo_id + 1 := by
    rw [hp]
    exact intAdd_eq _ _ (by omega) (by omega)
  rw [hinc] at hit
  have hK1 := invDriver_inserir s G ks hK
  rw [hinc] at hK1
  obtain ⟨s2, t, G2, ks2, hl, hK2, _, hG2, hmem⟩ :=
    laco_cheia capacidade_ok es2 _ (G + 1) ks hK1 (by omega)
  have hids2 := invDriver_ids s2 G2 ks2 hK2 (by omega)
  refine ⟨⟨_, hit, by simp⟩, hK.2.1, ?_, s2, t, conteudo s2, ?_,
    snapshot_eq capacidade_ok s2 hK2.1, ?_⟩
  · rw [snapshot_eq capacidade_ok s hK.1, snapshot_eq capacidade_ok _ hK1.1]
    rfl
  · rw [main_eq] at hm ⊢
    rw [laco_append es (e :: es2) _ s hm]
    simp only [laco, hit]
    rw [if_pos (by decide)]
    exact hl
  · intro p hpm
    obtain ⟨k, hk, hkp⟩ := mem_ids hids2 p hpm
    rw [hkp, hp]
    rcases hmem k hk with h | h
    · have := hK.2.2.2.2.1 k h
      omega
    · omega

theorem inserir_descarta_witness :
    main CAPACIDADE_MAXIMA (fun i => i) [] = some (estadoPreparado (fun i => i), false) ∧
      opcaoDe entradaInserir = 2 ∧
      5 + (([] : List Entrada) ++ entradaInserir :: [entradaJogar]).countP gera ≤
        2147483647 ∧
      ((∃ out, iteracao entradaInserir (estadoPreparado (fun i => i)) =
          some ({ estadoPreparado (fun i => i) with
            proximo_id := (estadoPreparado (fun i => i)).proximo_id + 1 }, 2, out) ∧
          Saida.filaCheia (tipoDe entradaInserir.r) (estadoPreparado (fun i => i)).proximo_id ∈
            out) ∧
        (estadoPreparado (fun i => i)).contador = CAPACIDADE_MAXIMA ∧
        snapshot ({ estadoPreparado (fun i => i) with
            proximo_id := (estadoPreparado (fun i => i)).proximo_id + 1 } :
              Estado CAPACIDADE_MAXIMA) =
          snapshot (estadoPreparado (fun i => i)) ∧
        ∃ s2 t l, main CAPACIDADE_MAXIMA (fun i => i)
            ([] ++ entradaInserir :: [entradaJogar]) = some (s2, t) ∧
          snapshot s2 = some l ∧ ∀ p ∈ l, p.id ≠ (estadoPreparado (fun i => i)).proximo_id) :=
  ⟨by rw [main_eq]; rfl, rfl, by decide,
    inserir_descarta (fun i => i) [] [entradaJogar] entradaInserir _
      (by rw [main_eq]; rfl) rfl (by decide)⟩

/-- C17, as the spec states it, fails: after the priming and `2^31 - 6` iterations that
read the option `2`, the driver is at the start of an iteration with
`proximo_id = 2^31 - 1`, and one more iteration that reads the option `2` leaves
`proximo_id = -2^31`: it did not increase by `1`. -/
theorem contraexemplo_inserir :
    (main CAPACIDADE_MAXIMA (fun _ => 0) (List.replicate 2147483642 entradaInserir ++ [])).map
        (fun r => (r.1.proximo_id, r.2)) = some (2147483647, false) ∧
      (main CAPACIDADE_MAXIMA (fun _ => 0)
        (List.replicate 2147483642 entradaInserir ++ [entradaInserir])).map
        (fun r => (r.1.proximo_id, r.2)) = some (-2147483648, false) := by
  constructor
  · rw [preparado_inserir]
    rfl
  · rw [preparado_inserir]
    rfl

/-- C18, as the code has it. Queued ids are ordered while the id counter fits an `int`:
for every sequence of random values and every finite sequence of inputs of the loop that
makes at most `2^31 - 1 - 5` calls of `gerarPeca`, in the state that `main` reaches the
ids of the snapshot, read from the head, are strictly increasing and all smaller than
`proximo_id`; in particular no id occurs twice in the queue. -/
theorem ids_ordenados (rand : Nat → Nat) (es : List Entrada)
    (hb : 5 + es.countP gera ≤ 2147483647) :
    ∃ s t l, main CAPACIDADE_MAXIMA rand es = some (s, t) ∧ snapshot s = some l ∧
      (l.map Peca.id).Pairwise (fun a b => a < b) ∧ (∀ p ∈ l, p.id < s.proximo_id) ∧
      (l.map Peca.id).Nodup := by
  obtain ⟨s, t, G, ks, hm, hK, _, hG, _⟩ := main_cheia rand es (by omega)
  have hids := invDriver_ids s G ks hK (by omega)
  have hp : s.proximo_id = (G : Int) := by
    rw [hK.2.2.1]
    exact wrapInt_eq _ (by omega) (by omega)
  have hpw : ((conteudo s).map Peca.id).Pairwise (fun a b => a < b) := by
    rw [hids, List.pairwise_map]
    exact hK.2.2.2.1.imp (fun h => by omega)
  refine ⟨s, t, conteudo s, hm, snapshot_eq capacidade_ok s hK.1, hpw, ?_, ?_⟩
  · intro p hpm
    obtain ⟨k, hk, hkp⟩ := mem_ids hids p hpm
    have := hK.2.2.2.2.1 k hk
    omega
  · exact hpw.imp (fun h => by omega)

theorem ids_ordenados_witness :
    5 + [(⟨some 1, 3, 'x'⟩ : Entrada), ⟨some 2, 0, 'x'⟩, ⟨some 1, 1, 'y'⟩].countP gera ≤
        2147483647 ∧
      ∃ s t l, main CAPACIDADE_MAXIMA (fun i => i)
          [⟨some 1, 3, 'x'⟩, ⟨some 2, 0, 'x'⟩, ⟨some 1, 1, 'y'⟩] = some (s, t) ∧
        snapshot s = some l ∧
        (l.map Peca.id).Pairwise (fun a b => a < b) ∧ (∀ p ∈ l, p.id < s.proximo_id) ∧
        (l.map Peca.id).Nodup :=
  ⟨by decide, ids_ordenados (fun i => i)
    [⟨some 1, 3, 'x'⟩, ⟨some 2, 0, 'x'⟩, ⟨some 1, 1, 'y'⟩] (by decide)⟩

/-- C18, as the spec states it, fails. After the priming, `2^31 - 6` iterations that read
the option `2` and one that reads the option `1`, the ids of the snapshot are
`1, 2, 3, 4, 2^31 - 1` and `proximo_id` is `-2^31`: no queued id is smaller than it. After
the priming, `2^31 - 5` iterations that read the option `2` and two that read the option
`1`, the ids of the snapshot are `2, 3, 4, -2^31, -2^31 + 1`, which are not increasing. -/
theorem contraexemplo_ordem :
    (main CAPACIDADE_MAXIMA (fun _ => 0)
        (List.replicate 2147483642 entradaInserir ++ [entradaJogar])).bind
      (fun r => (snapshot r.1).map (fun l => (l.map Peca.id, r.1.proximo_id))) =
        some ([1, 2, 3, 4, 2147483647], -2147483648) ∧
      (main CAPACIDADE_MAXIMA (fun _ => 0)
        (List.replicate 2147483643 entradaInserir ++ [entradaJogar, entradaJogar])).bind
      (fun r => (snapshot r.1).map (List.map Peca.id)) =
        some [2, 3, 4, -2147483648, -2147483647] ∧
      ¬ ((1 : Int) < -2147483648) ∧ ¬ ((4 : Int) < -2147483648) := by
  refine ⟨?_, ?_, by omega, by omega⟩
  · rw [preparado_inserir]
    rfl
  · rw [preparado_inserir]
    rfl

end Tetris
